import Mathlib

set_option maxRecDepth 100000

/-!
Verification of the football-stats scraping pipeline (src/scraper.py, src/app.py).

The development shallowly embeds the core pipeline of src/scraper.py:

* `merge_data_sources` (scraper.py lines 193-256): the three-source outer-join
  merger, built on a model of `pandas.merge(..., on=["Player","Squad"], how="outer")`.
* `calculate_derived_metrics` (scraper.py lines 258-337): the per-row derived
  metric calculator (rates, differentials, placeholder columns).
* The failure branches of `scrape_whoscored_stats` (lines 94-100) and
  `scrape_understat_stats` (lines 146-191).

Modelling conventions:

* A pandas DataFrame is a `Table`: an ordered column-name list plus rows.
  Each row is an association list from column name to cell value; a
  well-formed (`WF`) table has every row's key sequence equal to its column
  list, which is the invariant every real DataFrame satisfies.
* A cell `Value` is a missing value (`na`, pandas NaN), a number, or a string.
* Python floats are `PyFloat := Option FracV`: `none` models NaN, `some q` a
  real value modelled exactly as a rational.  `FracV` is an unreduced fraction
  over `Int` (numerator, positive denominator) so that every operation
  reduces inside the Lean kernel.  Binary-float rounding error is not
  modelled; `float(str)` is modelled by a plain decimal parser (scientific
  notation, "inf" and "nan" literals are treated as non-numeric, which no
  claim exercises).
* Python exceptions are `Except PyErr`; `try/except` blocks are explicit
  matches on the error value.
* pandas raises `KeyError` when a merge key column is absent; the merge model
  is total instead (rows without key columns get `na` keys) and every theorem
  touching that territory assumes the key columns are present.
* The `ValueError` that `pd.DataFrame(rows, columns=headers)` raises on a
  data/header width mismatch (scraper.py line 227) is modelled explicitly:
  `merge_data_sources_ex` propagates it as an `Except.error`, and the total
  `merge_data_sources` agrees with it wherever no mismatched Summary tab is
  reached.
-/

/-- Unreduced rational number with integer numerator and (by the convention of
every constructor used here) positive denominator.  Arithmetic avoids gcd
normalisation so the kernel can evaluate it. -/
structure FracV where
  num : Int
  den : Int
deriving DecidableEq, Repr

/-- Addition of fractions without normalisation. -/
def FracV.add (a b : FracV) : FracV := ⟨a.num * b.den + b.num * a.den, a.den * b.den⟩

/-- Subtraction of fractions without normalisation. -/
def FracV.sub (a b : FracV) : FracV := ⟨a.num * b.den - b.num * a.den, a.den * b.den⟩

/-- Multiplication of fractions without normalisation. -/
def FracV.mul (a b : FracV) : FracV := ⟨a.num * b.num, a.den * b.den⟩

/-- Division of fractions; the caller guards against a zero divisor.  The sign
is normalised onto the numerator so the denominator stays positive. -/
def FracV.div (a b : FracV) : FracV :=
  let n := a.num * b.den
  let d := a.den * b.num
  if d < 0 then ⟨-n, -d⟩ else ⟨n, d⟩

/-- Strict positivity of a fraction with positive denominator. -/
def FracV.isPos (a : FracV) : Bool := decide (0 < a.num)

/-- Zero test of a fraction with nonzero denominator. -/
def FracV.isZero (a : FracV) : Bool := decide (a.num = 0)

/-- Round to the nearest integer, ties to even — the rounding Python's
fixed-point string formatting applies. -/
def FracV.roundHalfEven (f : FracV) : Int :=
  let k := f.num.fdiv f.den
  let twice := 2 * (f.num - k * f.den)
  if twice < f.den then k
  else if f.den < twice then k + 1
  else if k % 2 = 0 then k else k + 1

/-- Cell value of a table: pandas NaN, a number, or a string. -/
inductive Value
  | na : Value
  | num : FracV → Value
  | str : String → Value
deriving DecidableEq, Repr

/-- Python exception kinds relevant to scraper.py's except clauses. -/
inductive PyErr
  | valueError
  | typeError
  | zeroDivisionError
deriving DecidableEq, Repr

/-- A Python float value: `none` is NaN, `some q` an ordinary value. -/
abbrev PyFloat := Option FracV

/-- Strip leading and trailing whitespace, modelling Python float parsing's
tolerance of surrounding whitespace. -/
def stripChars (cs : List Char) : List Char :=
  ((cs.dropWhile Char.isWhitespace).reverse.dropWhile Char.isWhitespace).reverse

/-- Digit run to a natural number. -/
def digitsToNat (l : List Char) : Nat :=
  l.foldl (fun n c => n * 10 + (c.toNat - 48)) 0

/-- Model of Python `float(s)` on a string: optional sign, decimal digits with
an optional fractional part.  Returns `none` where Python raises ValueError. -/
def parseFloat (s : String) : Option FracV :=
  let cs := stripChars s.data
  let signRest : Int × List Char :=
    match cs with
    | '-' :: r => (-1, r)
    | '+' :: r => (1, r)
    | r => (1, r)
  let sgn := signRest.1
  let rest := signRest.2
  let intPart := rest.takeWhile Char.isDigit
  let rest2 := rest.dropWhile Char.isDigit
  match rest2 with
  | [] =>
    if intPart.isEmpty then none
    else some ⟨sgn * (digitsToNat intPart : Int), 1⟩
  | '.' :: frac =>
    let fracDigits := frac.takeWhile Char.isDigit
    if (frac.dropWhile Char.isDigit).isEmpty then
      if intPart.isEmpty && fracDigits.isEmpty then none
      else
        some ⟨sgn * ((digitsToNat intPart : Int) * (10 ^ fracDigits.length : Nat) +
                (digitsToNat fracDigits : Int)), ((10 : Nat) ^ fracDigits.length : Nat)⟩
    else none
  | _ => none

/-- Model of Python `float(cell)` on a DataFrame cell: NaN stays NaN, numbers
pass through, strings are parsed (ValueError on failure). -/
def pyFloatOf : Value → Except PyErr PyFloat
  | Value.na => Except.ok none
  | Value.num q => Except.ok (some q)
  | Value.str s =>
    match parseFloat s with
    | some q => Except.ok (some q)
    | none => Except.error PyErr.valueError

/-- NaN-propagating addition. -/
def pfAdd : PyFloat → PyFloat → PyFloat
  | some a, some b => some (a.add b)
  | _, _ => none

/-- NaN-propagating subtraction. -/
def pfSub : PyFloat → PyFloat → PyFloat
  | some a, some b => some (a.sub b)
  | _, _ => none

/-- NaN-propagating scalar multiplication. -/
def pfMul : PyFloat → PyFloat → PyFloat
  | some a, some b => some (a.mul b)
  | _, _ => none

/-- Python float division: ZeroDivisionError on a zero divisor (even for a NaN
numerator), NaN otherwise propagates. -/
def pfDiv (a b : PyFloat) : Except PyErr PyFloat :=
  match b with
  | some q =>
    if q.isZero then Except.error PyErr.zeroDivisionError
    else
      match a with
      | some p => Except.ok (some (p.div q))
      | none => Except.ok none
  | none => Except.ok none

/-- Python `x > 0` on a float: false for NaN. -/
def pfGtZero : PyFloat → Bool
  | some q => q.isPos
  | none => false

/-- Two-decimal fixed-point rendering of a fraction, as Python's `:.2f`. -/
def fmtFrac2 (f : FracV) : String :=
  let n := FracV.roundHalfEven ⟨f.num * 100, f.den⟩
  let sign := if n < 0 then "-" else ""
  let a := n.natAbs
  sign ++ toString (a / 100) ++ "." ++ (if a % 100 < 10 then "0" else "") ++ toString (a % 100)

/-- Python `f-string` `:.2f` on a float: NaN renders as "nan". -/
def fmtPF2 : PyFloat → String
  | none => "nan"
  | some f => fmtFrac2 f

/-- Python `pd.notna(cell)`: false exactly on NaN. -/
def pdNotna : Value → Bool
  | Value.na => false
  | _ => true

/-- A table row: an association list from column name to cell value.  In a
well-formed table the keys are exactly the table's columns, in order. -/
abbrev Row := List (String × Value)

/-- A pandas DataFrame: ordered column names plus rows. -/
structure Table where
  cols : List String
  rows : List Row
deriving DecidableEq, Repr

/-- Well-formedness: every row's key sequence equals the column list, the
invariant a real DataFrame maintains. -/
def WF (t : Table) : Prop := ∀ r ∈ t.rows, r.map Prod.fst = t.cols

instance (t : Table) : Decidable (WF t) := by unfold WF; infer_instance

/-- Cell of a row by column name; `na` when the column is absent. -/
def lookupV (r : Row) (c : String) : Value :=
  match r.find? (fun p => p.1 == c) with
  | some p => p.2
  | none => Value.na

/-- Cell of a table at column `c`, row index `i`. -/
def getCell (t : Table) (c : String) (i : Nat) : Value :=
  lookupV (t.rows.getD i []) c

/-- Replace the value of the first pair with the given key; identity when the
key is absent. -/
def replacePair : Row → String → Value → Row
  | [], _, _ => []
  | p :: ps, c, v => if p.1 = c then (c, v) :: ps else p :: replacePair ps c v

/-- Model of the pandas column assignment `df[c] = series`: overwrite the
column in place when it exists, append it otherwise. -/
def setColVals (t : Table) (c : String) (vs : List Value) : Table :=
  if c ∈ t.cols then ⟨t.cols, List.zipWith (fun r v => replacePair r c v) t.rows vs⟩
  else ⟨t.cols ++ [c], List.zipWith (fun r v => r ++ [(c, v)]) t.rows vs⟩

/-- Sequential fallible map, modelling `df.apply(lambda row: ..., axis=1)`:
the lambda runs row by row and the first raised exception aborts the whole
column computation. -/
def mapEx (f : α → Except ε β) : List α → Except ε (List β)
  | [] => Except.ok []
  | a :: l =>
    match f a with
    | Except.error e => Except.error e
    | Except.ok b =>
      match mapEx f l with
      | Except.error e => Except.error e
      | Except.ok bs => Except.ok (b :: bs)

/-- One `df[name] = df.apply(lambda row: ..., axis=1)` wrapped in
`try/except`: if the lambda raises on any row and the error kind is caught,
the whole column is assigned the constant fallback — this is scraper.py's
per-metric `except` branch (e.g. lines 270-271).  An uncaught error would
propagate in Python; the metric lambdas can only raise errors their `except`
clause lists (`rateCell_error_caught`, `diffCell_error_caught`,
`aerialCell_error_caught`), so that branch is unreachable and modelled as a
no-op. -/
def tryMetric (t : Table) (name : String) (cell : Row → Except PyErr String)
    (caught : List PyErr) (fallback : String) : Table :=
  match mapEx cell t.rows with
  | Except.ok ss => setColVals t name (ss.map Value.str)
  | Except.error e =>
    if e ∈ caught then
      setColVals t name (List.replicate t.rows.length (Value.str fallback))
    else t

/-- Per-row rate metric, scraper.py lines 266-268: evaluate the guard
`float(row[b]) > 0` first (it can raise), then the formatted quotient. -/
def rateCell (a b : Value) : Except PyErr String := do
  let fb ← pyFloatOf b
  if pfGtZero fb then do
    let fa ← pyFloatOf a
    let q ← pfDiv fa fb
    pure (fmtPF2 (pfMul q (some ⟨100, 1⟩)) ++ "%")
  else
    pure "0.00%"

/-- Per-row differential metric, scraper.py lines 288-289: the guard is
`pd.notna(row[b])`; the numerator is never checked for NaN. -/
def diffCell (a b : Value) : Except PyErr String :=
  if pdNotna b then do
    let fa ← pyFloatOf a
    let fb ← pyFloatOf b
    pure (fmtPF2 (pfSub fa fb))
  else
    pure "N/A"

/-- Per-row combined-denominator rate, scraper.py lines 321-322. -/
def aerialCell (w l : Value) : Except PyErr String := do
  let fw ← pyFloatOf w
  let fl ← pyFloatOf l
  if pfGtZero (pfAdd fw fl) then do
    let q ← pfDiv fw (pfAdd fw fl)
    pure (fmtPF2 (pfMul q (some ⟨100, 1⟩)) ++ "%")
  else
    pure "0.00%"

/-- Error kinds caught around the rate metrics (scraper.py line 270). -/
def caughtRate : List PyErr := [PyErr.valueError, PyErr.zeroDivisionError]

/-- Error kinds caught around the differential metrics (scraper.py line 292). -/
def caughtDiff : List PyErr := [PyErr.valueError, PyErr.typeError]

/-- One statement of `calculate_derived_metrics`: a guarded rate column, a
guarded differential column, the guarded combined-denominator rate column, or
an unconditional constant (placeholder) column. -/
inductive MetricOp
  | rate (name a b : String)
  | diff (name a b : String)
  | aerial (name w l : String)
  | const (name val : String)
deriving DecidableEq, Repr

/-- Column name an operation assigns. -/
def opName : MetricOp → String
  | MetricOp.rate n _ _ => n
  | MetricOp.diff n _ _ => n
  | MetricOp.aerial n _ _ => n
  | MetricOp.const n _ => n

/-- Source columns an operation reads. -/
def opSources : MetricOp → List String
  | MetricOp.rate _ a b => [a, b]
  | MetricOp.diff _ a b => [a, b]
  | MetricOp.aerial _ w l => [w, l]
  | MetricOp.const _ _ => []

/-- Execute one statement of `calculate_derived_metrics` on the table.  The
guard `if a in df.columns and b in df.columns` surrounds each computed
metric; placeholder assignments are unconditional. -/
def applyOp (t : Table) : MetricOp → Table
  | MetricOp.rate n a b =>
    if a ∈ t.cols ∧ b ∈ t.cols then
      tryMetric t n (fun r => rateCell (lookupV r a) (lookupV r b)) caughtRate "0.00%"
    else t
  | MetricOp.diff n a b =>
    if a ∈ t.cols ∧ b ∈ t.cols then
      tryMetric t n (fun r => diffCell (lookupV r a) (lookupV r b)) caughtDiff "N/A"
    else t
  | MetricOp.aerial n w l =>
    if w ∈ t.cols ∧ l ∈ t.cols then
      tryMetric t n (fun r => aerialCell (lookupV r w) (lookupV r l)) caughtRate "0.00%"
    else t
  | MetricOp.const n v => setColVals t n (List.replicate t.rows.length (Value.str v))

/-- The statements of `calculate_derived_metrics` (scraper.py lines 262-335),
in source order. -/
def derivedOps : List MetricOp :=
  [MetricOp.rate "Shooting_Conversion_Rate" "Goals" "Sh",
   MetricOp.rate "Pass_Completion_Rate" "Cmp" "Att",
   MetricOp.diff "xG_Overperformance" "Goals" "xG",
   MetricOp.diff "xA_Overperformance" "Assists" "xA",
   MetricOp.rate "Dribble_Completion_Rate" "Dribbles Succ" "Dribbles Att",
   MetricOp.aerial "Aerial_Duels_Win_Percentage" "Aerial Duels Won" "Aerial Duels Lost",
   MetricOp.const "Top_Speed" "N/A",
   MetricOp.const "Distance_Covered" "N/A",
   MetricOp.const "Big_Chances_Created" "N/A",
   MetricOp.const "Big_Chances_Missed" "N/A",
   MetricOp.const "Usage_Rate" "N/A",
   MetricOp.const "Ground_Duels_Won" "N/A",
   MetricOp.const "Passes_Leading_to_Shots" "N/A"]

/-- The seven placeholder columns added unconditionally
(scraper.py lines 329-335). -/
def placeholderNames : List String :=
  ["Top_Speed", "Distance_Covered", "Big_Chances_Created", "Big_Chances_Missed",
   "Usage_Rate", "Ground_Duels_Won", "Passes_Leading_to_Shots"]

/-- Model of `calculate_derived_metrics` (scraper.py lines 258-337): run the
thirteen column assignments in source order. -/
def calculate_derived_metrics (t : Table) : Table :=
  derivedOps.foldl applyOp t

/-- Identity key of a row: its Player and Squad cells
(`on=["Player","Squad"]` in scraper.py lines 218, 240, 254). -/
def rowKeyOf (r : Row) : Value × Value := (lookupV r "Player", lookupV r "Squad")

/-- Keys of a table, in row order. -/
def keysOf (t : Table) : List (Value × Value) := t.rows.map rowKeyOf

/-- Left-hand rows of an outer merge: each left row paired with every
key-matching right row's extra columns, or with nulls when unmatched. -/
def mergedLeftRows (lrows rrows : List Row) (extras : List String) : List Row :=
  lrows.flatMap (fun lr =>
    match rrows.filter (fun rr => rowKeyOf rr = rowKeyOf lr) with
    | [] => [lr ++ extras.map (fun c => (c, Value.na))]
    | ms => ms.map (fun rr => lr ++ extras.map (fun c => (c, lookupV rr c))))

/-- Right-only rows of an outer merge: right rows whose key matches no left
row, re-shaped to the merged schema with nulls in left-only columns. -/
def mergedRightRows (lrows rrows : List Row) (lcols extras : List String) : List Row :=
  (rrows.filter (fun rr => ¬ lrows.any (fun lr => rowKeyOf lr = rowKeyOf rr))).map
    (fun rr =>
      lcols.map (fun c => (c, if c = "Player" ∨ c = "Squad" then lookupV rr c else Value.na)) ++
      extras.map (fun c => (c, lookupV rr c)))

/-- Model of `pd.merge(l, r, on=["Player","Squad"], how="outer")` as used in
scraper.py: full outer join on the identity key.  The merged schema is the
left columns followed by the right columns other than the key pair; row order
is left rows (in order) then right-only rows (in order), which is pandas'
`sort=False` behaviour and which no claim depends on. -/
def pd_merge (l r : Table) : Table :=
  let extras := r.cols.filter (fun c => c ≠ "Player" ∧ c ≠ "Squad")
  ⟨l.cols ++ extras,
   mergedLeftRows l.rows r.rows extras ++ mergedRightRows l.rows r.rows l.cols extras⟩

/-- Model of `df.drop(columns=names)`: remove the named columns. -/
def dropCols (t : Table) (names : List String) : Table :=
  ⟨t.cols.filter (fun c => c ∉ names),
   t.rows.map (fun r => r.filter (fun p => p.1 ∉ names))⟩

/-- Names the merger drops from an incoming table before merging: columns
shared with the accumulator other than Player and Squad
(scraper.py lines 209-215, 234-238, 248-252). -/
def commonCols (acc t : Table) : List String :=
  t.cols.filter (fun c => c ∈ acc.cols ∧ c ≠ "Player" ∧ c ≠ "Squad")

/-- Drop the shared non-key columns from the incoming table. -/
def dropCommonCols (acc t : Table) : Table := dropCols t (commonCols acc t)

/-- One merge pass of `merge_data_sources`: resolve duplicate columns
first-seen-source-wins, then outer-join on the identity key. -/
def mergeStep (acc t : Table) : Table := pd_merge acc (dropCommonCols acc t)

/-- Raw content of one WhoScored statistics tab: header cells and body rows as
scraped text (scraper.py lines 127-142). -/
structure RawTab where
  headers : List String
  rows : List (List String)
deriving DecidableEq, Repr

/-- Width pandas infers for a list-of-lists data argument: the longest row
(shorter rows are padded with NaN). -/
def rawDataWidth (rows : List (List String)) : Nat :=
  rows.foldl (fun w r => max w r.length) 0

/-- The failure condition of `pd.DataFrame(rows, columns=headers)`
(scraper.py line 227): with non-empty data, pandas raises
`ValueError: n columns passed, passed data had m columns` when the inferred
data width differs from the header count.  (Empty data with explicit columns
builds an empty frame without error.) -/
def rawWidthMismatch (td : RawTab) : Bool :=
  decide (td.rows ≠ [] ∧ rawDataWidth td.rows ≠ td.headers.length)

/-- The successful result of `pd.DataFrame(rows, columns=headers)` on scraped
text (scraper.py line 227): all cells are strings, rows shorter than the
header count are padded with NaN.  Meaningful when `rawWidthMismatch td` is
false; `buildWhoscoredFrame` below packages the construction together with its
`ValueError` branch. -/
def rawToTable (td : RawTab) : Table :=
  ⟨td.headers,
   td.rows.map (fun r => td.headers.zip
     (r.map Value.str ++ List.replicate (td.headers.length - r.length) Value.na))⟩

/-- Model of `whoscored_df = pd.DataFrame(rows, columns=headers)`
(scraper.py line 227) with its error path: `ValueError` on a data/header
width mismatch, otherwise the frame. -/
def buildWhoscoredFrame (td : RawTab) : Except PyErr Table :=
  if rawWidthMismatch td then Except.error PyErr.valueError
  else Except.ok (rawToTable td)

/-- Model of `df.rename(columns={"Team": "Squad"})`
(scraper.py lines 231, 245). -/
def renameTeamSquad (t : Table) : Table :=
  ⟨t.cols.map (fun c => if c = "Team" then "Squad" else c),
   t.rows.map (fun r => r.map (fun p => if p.1 = "Team" then ("Squad", p.2) else p))⟩

/-- First table stored under the given name, modelling a Python dict lookup. -/
def lookupTable (l : List (String × Table)) (n : String) : Option Table :=
  (l.find? (fun p => p.1 == n)).map (fun p => p.2)

/-- First tab stored under the given name in the WhoScored extract dict. -/
def lookupTab (l : List (String × RawTab)) (n : String) : Option RawTab :=
  (l.find? (fun p => p.1 == n)).map (fun p => p.2)

/-- WhoScored stage of the merger (scraper.py lines 220-240) on the
exception-free domain: the extract is used only when it is present, has a
"Summary" tab, and that tab's headers contain both "Player" and "Team";
otherwise the accumulator passes through unchanged.  This total function
ignores the `ValueError` that `pd.DataFrame` raises on a width-mismatched
Summary tab before the header guard runs; `mergeWhoscoredEx` below carries
that error path, and the two agree whenever `rawWidthMismatch` is false. -/
def mergeWhoscored (m : Table) (ws : Option (List (String × RawTab))) : Table :=
  match ws.bind (fun d => lookupTab d "Summary") with
  | some td =>
    let wdf := rawToTable td
    if "Player" ∈ wdf.cols ∧ "Team" ∈ wdf.cols then mergeStep m (renameTeamSquad wdf)
    else m
  | none => m

/-- Understat stage of the merger (scraper.py lines 242-254): merged only when
the frame is present and non-empty (`df.empty` is true when either axis has
length zero). -/
def mergeUnderstat (m : Table) (us : Option Table) : Table :=
  match us with
  | some u =>
    if u.rows ≠ [] ∧ u.cols ≠ [] then mergeStep m (renameTeamSquad u)
    else m
  | none => m

/-- Model of `merge_data_sources` (scraper.py lines 193-256): start from the
FBref "standard" table (returning None when it is absent), fold the remaining
FBref tables, then the WhoScored summary, then the Understat frame. -/
def merge_data_sources (fbref_dfs : List (String × Table))
    (whoscored_data : Option (List (String × RawTab)))
    (understat_df : Option Table) : Option Table :=
  match lookupTable fbref_dfs "standard" with
  | none => none
  | some base =>
    let m1 := (fbref_dfs.filter (fun p => p.1 ≠ "standard")).foldl
      (fun acc p => mergeStep acc p.2) base
    let m2 := mergeWhoscored m1 whoscored_data
    some (mergeUnderstat m2 understat_df)

/-- WhoScored stage with the exception path of scraper.py line 227: the
`pd.DataFrame` call runs before the Player/Team header check of line 230, so a
present "Summary" tab whose data width mismatches its header count raises
`ValueError` out of the stage no matter what the headers are. -/
def mergeWhoscoredEx (m : Table) (ws : Option (List (String × RawTab))) :
    Except PyErr Table :=
  match ws.bind (fun d => lookupTab d "Summary") with
  | some td =>
    match buildWhoscoredFrame td with
    | Except.error e => Except.error e
    | Except.ok wdf =>
      if "Player" ∈ wdf.cols ∧ "Team" ∈ wdf.cols then
        Except.ok (mergeStep m (renameTeamSquad wdf))
      else Except.ok m
  | none => Except.ok m

/-- Model of `merge_data_sources` with the uncaught `ValueError` of the
WhoScored `pd.DataFrame` construction made explicit: the function has no
`try/except`, so the error propagates out of the function (and up through
`scrape_all`, app.py line 125).  The "standard" check of scraper.py
lines 198-200 runs first, so a missing "standard" table still yields the
`None` return before the WhoScored stage is reached.  All other pandas error
territory stays totalised exactly as in `merge_data_sources`, with which this
function agrees whenever no width mismatch is reached. -/
def merge_data_sources_ex (fbref_dfs : List (String × Table))
    (whoscored_data : Option (List (String × RawTab)))
    (understat_df : Option Table) : Except PyErr (Option Table) :=
  match lookupTable fbref_dfs "standard" with
  | none => Except.ok none
  | some base =>
    let m1 := (fbref_dfs.filter (fun p => p.1 ≠ "standard")).foldl
      (fun acc p => mergeStep acc p.2) base
    match mergeWhoscoredEx m1 whoscored_data with
    | Except.error e => Except.error e
    | Except.ok m2 => Except.ok (some (mergeUnderstat m2 understat_df))

/-- One WhoScored statistics tab as reached by the scraping loop: its name and
its table content, `none` when waiting for the tab's table timed out (the
`continue` branch, scraper.py lines 119-125). -/
structure WsTab where
  name : String
  content : Option RawTab
deriving DecidableEq, Repr

/-- Model of `scrape_whoscored_stats` (scraper.py lines 86-144) from the point
the page load resolves: the argument is `none` when `WebDriverWait` times out,
in which case the function executes `return None` (lines 98-100); otherwise
each tab that loaded contributes its extracted table. -/
def scrape_whoscored_stats (page : Option (List WsTab)) : Option (List (String × RawTab)) :=
  match page with
  | none => none
  | some tabs => some (tabs.filterMap (fun tb => tb.content.map (fun c => (tb.name, c))))

/-- A raw HTML table as BeautifulSoup sees it: header-row cells and body rows
of cell texts. -/
structure HtmlTable where
  headerCells : List String
  bodyRows : List (List String)
deriving DecidableEq, Repr

/-- Column names of the Understat player frame, in the dict insertion order of
scraper.py lines 177-187. -/
def understatCols : List String :=
  ["Player", "Team", "Games", "Goals", "xG", "Assists", "xA", "Shots",
   "Key Passes", "Yellow Cards", "Red Cards"]

/-- One Understat player row built from the cells of an HTML table row
(scraper.py lines 173-187).  Python indexes `cells[0]`..`cells[10]` directly
and would raise IndexError on a row with 2-10 cells; the model pads with ""
instead, outside every claim's domain. -/
def understatRow (cells : List String) : Row :=
  [("Player", Value.str (cells.getD 0 "")),
   ("Team", Value.str (cells.getD 1 "")),
   ("Games", Value.str (cells.getD 2 "")),
   ("Goals", Value.str (cells.getD 3 "")),
   ("xG", Value.str (cells.getD 4 "")),
   ("Assists", Value.str (cells.getD 5 "")),
   ("xA", Value.str (cells.getD 6 "")),
   ("Shots", Value.str (cells.getD 7 "")),
   ("Key Passes", Value.str (cells.getD 8 "")),
   ("Yellow Cards", Value.str (cells.getD 9 "")),
   ("Red Cards", Value.str (cells.getD 10 ""))]

/-- Model of `scrape_understat_stats` (scraper.py lines 146-191) from the
point the page is parsed: the argument is the result of
`soup.find("table", class="players")`, `none` when the players table is not
found, in which case the function executes `return None` (lines 155-158).
Rows with fewer than two cells are skipped (lines 169-171).  (For an empty
player list Python's `pd.DataFrame([])` has no columns while the model keeps
the fixed schema; the merger guards on emptiness first, so behaviour towards
the merger is identical.) -/
def scrape_understat_stats (playersTable : Option HtmlTable) : Option Table :=
  match playersTable with
  | none => none
  | some tbl =>
    some ⟨understatCols,
          tbl.bodyRows.filterMap (fun cells =>
            if cells.length < 2 then none else some (understatRow cells))⟩

/-! ### Basic association-list lemmas -/

theorem lookupV_nil (c : String) : lookupV [] c = Value.na := rfl

theorem lookupV_cons (p : String × Value) (r : Row) (c : String) :
    lookupV (p :: r) c = if p.1 = c then p.2 else lookupV r c := by
  by_cases h : p.1 = c
  · simp [lookupV, List.find?_cons_of_pos, h]
  · simp [lookupV, List.find?_cons_of_neg, h]

theorem lookupV_append_left {r : Row} {c : String} (h : c ∈ r.map Prod.fst) (s : Row) :
    lookupV (r ++ s) c = lookupV r c := by
  induction r with
  | nil => simp at h
  | cons p ps ih =>
    by_cases hp : p.1 = c
    · simp [List.cons_append, lookupV_cons, hp]
    · simp only [List.map_cons, List.mem_cons] at h
      rcases h with h | h
      · exact absurd h.symm hp
      · simp [List.cons_append, lookupV_cons, hp, ih h]

theorem lookupV_append_right {r : Row} {c : String} (h : c ∉ r.map Prod.fst) (s : Row) :
    lookupV (r ++ s) c = lookupV s c := by
  induction r with
  | nil => rfl
  | cons p ps ih =>
    simp only [List.map_cons, List.mem_cons] at h
    push_neg at h
    rw [List.cons_append, lookupV_cons, if_neg (fun hc => h.1 hc.symm), ih h.2]

theorem keys_replacePair (r : Row) (c : String) (v : Value) :
    (replacePair r c v).map Prod.fst = r.map Prod.fst := by
  induction r with
  | nil => rfl
  | cons p ps ih =>
    by_cases hp : p.1 = c
    · simp [replacePair, hp]
    · simp [replacePair, hp, ih]

theorem lookupV_replacePair_ne (r : Row) {c d : String} (v : Value) (h : d ≠ c) :
    lookupV (replacePair r c v) d = lookupV r d := by
  induction r with
  | nil => rfl
  | cons p ps ih =>
    by_cases hp : p.1 = c
    · rw [replacePair, if_pos hp, lookupV_cons, lookupV_cons]
      have hcd : ¬ (c = d) := fun hcd => h hcd.symm
      rw [if_neg hcd, if_neg (hp ▸ hcd)]
    · rw [replacePair, if_neg hp, lookupV_cons, lookupV_cons, ih]

theorem lookupV_replacePair_self {r : Row} {c : String} (v : Value)
    (h : c ∈ r.map Prod.fst) : lookupV (replacePair r c v) c = v := by
  induction r with
  | nil => simp at h
  | cons p ps ih =>
    by_cases hp : p.1 = c
    · simp [replacePair, hp, lookupV_cons]
    · simp only [List.map_cons, List.mem_cons] at h
      rcases h with h | h
      · exact absurd h.symm hp
      · simp [replacePair, hp, lookupV_cons, ih h]

theorem replacePair_lookup (r : Row) (c : String) :
    replacePair r c (lookupV r c) = r := by
  induction r with
  | nil => rfl
  | cons p ps ih =>
    by_cases hp : p.1 = c
    · rw [lookupV_cons, if_pos hp, replacePair, if_pos hp]
      exact congrArg (· :: ps) (Prod.ext hp.symm rfl)
    · rw [lookupV_cons, if_neg hp, replacePair, if_neg hp, ih]

/-! ### mapEx and setColVals lemmas -/

theorem getD_of_ge (l : List α) (i : Nat) (d : α) (h : l.length ≤ i) :
    l.getD i d = d := by
  rw [List.getD_eq_getElem?_getD, List.getElem?_eq_none h]
  rfl

theorem getD_zipWith (f : α → β → γ) {l : List α} {m : List β}
    (h : m.length = l.length) (i : Nat) (hi : i < l.length) (da : α) (db : β) (dc : γ) :
    (List.zipWith f l m).getD i dc = f (l.getD i da) (m.getD i db) := by
  rw [List.getD_eq_getElem?_getD, List.getD_eq_getElem?_getD, List.getD_eq_getElem?_getD,
    List.getElem?_zipWith, List.getElem?_eq_getElem hi,
    List.getElem?_eq_getElem (show i < m.length by omega)]
  rfl

theorem getD_map (f : α → β) {l : List α} (i : Nat) (hi : i < l.length)
    (da : α) (db : β) : (l.map f).getD i db = f (l.getD i da) := by
  rw [List.getD_eq_getElem?_getD, List.getD_eq_getElem?_getD, List.getElem?_map,
    List.getElem?_eq_getElem hi]
  rfl

theorem mapEx_ok_length {f : α → Except ε β} :
    ∀ {l : List α} {bs : List β}, mapEx f l = Except.ok bs → bs.length = l.length := by
  intro l
  induction l with
  | nil => intro bs h; cases h; rfl
  | cons a l ih =>
    intro bs h
    unfold mapEx at h
    cases hfa : f a with
    | error e => rw [hfa] at h; cases h
    | ok b =>
      rw [hfa] at h
      cases hml : mapEx f l with
      | error e => rw [hml] at h; cases h
      | ok bs2 =>
        rw [hml] at h
        cases h
        simp [ih hml]

theorem mapEx_ok_of_forall {f : α → Except ε β} {g : α → β} :
    ∀ {l : List α}, (∀ a ∈ l, f a = Except.ok (g a)) → mapEx f l = Except.ok (l.map g) := by
  intro l
  induction l with
  | nil => intro _; rfl
  | cons a l ih =>
    intro h
    unfold mapEx
    rw [h a (List.mem_cons_self a l), ih (fun x hx => h x (List.mem_cons_of_mem a hx))]
    rfl

theorem mapEx_ok_getD {f : α → Except ε β} (d : α) (db : β) :
    ∀ {l : List α} {bs : List β}, mapEx f l = Except.ok bs →
      ∀ i, i < l.length → f (l.getD i d) = Except.ok (bs.getD i db) := by
  intro l
  induction l with
  | nil => intro bs _ i hi; simp at hi
  | cons a l ih =>
    intro bs h i hi
    unfold mapEx at h
    cases hfa : f a with
    | error e => rw [hfa] at h; cases h
    | ok b =>
      rw [hfa] at h
      cases hml : mapEx f l with
      | error e => rw [hml] at h; cases h
      | ok bs2 =>
        rw [hml] at h
        cases h
        cases i with
        | zero => simpa using hfa
        | succ j =>
          have hj : j < l.length := by simpa using hi
          simpa using ih hml j hj

theorem mapEx_congr {f g : α → Except ε β} (d : α) :
    ∀ {l m : List α}, l.length = m.length →
      (∀ i, i < l.length → f (l.getD i d) = g (m.getD i d)) →
      mapEx f l = mapEx g m := by
  intro l
  induction l with
  | nil =>
    intro m hlen _
    cases m with
    | nil => rfl
    | cons b m => simp at hlen
  | cons a l ih =>
    intro m hlen hpt
    cases m with
    | nil => simp at hlen
    | cons b m2 =>
      have h0 : f a = g b := by simpa using hpt 0 (by simp)
      have hrest : mapEx f l = mapEx g m2 := by
        refine ih (by simpa using hlen) ?_
        intro i hi
        simpa using hpt (i + 1) (by simpa using Nat.succ_lt_succ hi)
      unfold mapEx
      rw [h0, hrest]

theorem cols_setColVals (t : Table) (c : String) (vs : List Value) :
    (setColVals t c vs).cols = if c ∈ t.cols then t.cols else t.cols ++ [c] := by
  unfold setColVals
  by_cases hc : c ∈ t.cols <;> simp [hc]

theorem mem_cols_setColVals (t : Table) (c : String) (vs : List Value) (d : String) :
    d ∈ (setColVals t c vs).cols ↔ d ∈ t.cols ∨ d = c := by
  rw [cols_setColVals]
  by_cases hc : c ∈ t.cols
  · rw [if_pos hc]
    constructor
    · exact fun h => Or.inl h
    · rintro (h | rfl) <;> [exact h; exact hc]
  · rw [if_neg hc]
    simp

theorem rows_length_setColVals (t : Table) (c : String) (vs : List Value)
    (h : vs.length = t.rows.length) :
    (setColVals t c vs).rows.length = t.rows.length := by
  unfold setColVals
  by_cases hc : c ∈ t.cols <;> simp [hc, List.length_zipWith, h]

theorem getCell_out_of_range (t : Table) (c : String) (i : Nat)
    (h : t.rows.length ≤ i) : getCell t c i = Value.na := by
  unfold getCell
  rw [getD_of_ge _ _ _ h]
  rfl

theorem getCell_setColVals_ne (t : Table) (c : String) (vs : List Value) (d : String)
    (hne : d ≠ c) (hlen : vs.length = t.rows.length) (i : Nat) :
    getCell (setColVals t c vs) d i = getCell t d i := by
  by_cases hi : i < t.rows.length
  · unfold setColVals getCell
    by_cases hc : c ∈ t.cols
    · rw [if_pos hc]
      simp only
      rw [getD_zipWith _ hlen i hi [] Value.na []]
      exact lookupV_replacePair_ne _ _ hne
    · rw [if_neg hc]
      simp only
      rw [getD_zipWith _ hlen i hi [] Value.na []]
      have : lookupV ((t.rows.getD i []) ++ [(c, vs.getD i Value.na)]) d =
          if (t.rows.getD i []).find? (fun p => p.1 == d) |>.isSome then
            lookupV (t.rows.getD i []) d else lookupV [(c, vs.getD i Value.na)] d := by
        unfold lookupV
        rw [List.find?_append]
        cases hf : (t.rows.getD i []).find? (fun p => p.1 == d) <;> simp [hf]
      rw [this]
      by_cases hf : ((t.rows.getD i []).find? (fun p => p.1 == d)).isSome
      · rw [if_pos hf]
      · rw [if_neg hf]
        unfold lookupV
        have : (c == d) = false := by
          simp only [beq_eq_false_iff_ne]
          exact fun h => hne h.symm
        simp only [List.find?_cons, this, List.find?_nil]
        unfold lookupV at *
        cases hfo : (t.rows.getD i []).find? (fun p => p.1 == d) with
        | some p => rw [hfo] at hf; simp at hf
        | none => rfl
  · have h1 : (setColVals t c vs).rows.length ≤ i := by
      rw [rows_length_setColVals _ _ _ hlen]; omega
    rw [getCell_out_of_range _ _ _ h1, getCell_out_of_range _ _ _ (by omega)]

theorem lookupV_append_single (r : Row) (c : String) (v : Value)
    (h : c ∉ r.map Prod.fst) : lookupV (r ++ [(c, v)]) c = v := by
  rw [lookupV_append_right h, lookupV_cons, if_pos rfl]

theorem getCell_setColVals_self (t : Table) (c : String) (vs : List Value)
    (hwf : WF t) (hlen : vs.length = t.rows.length) (i : Nat) (hi : i < t.rows.length) :
    getCell (setColVals t c vs) c i = vs.getD i Value.na := by
  have hrow : (t.rows.getD i []) ∈ t.rows := by
    rw [List.getD_eq_getElem?_getD, List.getElem?_eq_getElem hi]
    exact List.getElem_mem hi
  have hkeys : (t.rows.getD i []).map Prod.fst = t.cols := hwf _ hrow
  unfold setColVals getCell
  by_cases hc : c ∈ t.cols
  · rw [if_pos hc]
    simp only
    rw [getD_zipWith _ hlen i hi [] Value.na []]
    exact lookupV_replacePair_self _ (hkeys ▸ hc)
  · rw [if_neg hc]
    simp only
    rw [getD_zipWith _ hlen i hi [] Value.na []]
    exact lookupV_append_single _ _ _ (hkeys ▸ hc)

theorem zipWith_forall_mem {f : α → β → γ} {l : List α} {m : List β} {P : γ → Prop}
    (h : ∀ a ∈ l, ∀ b ∈ m, P (f a b)) : ∀ x ∈ List.zipWith f l m, P x := by
  induction l generalizing m with
  | nil => intro x hx; simp at hx
  | cons a l ih =>
    intro x hx
    cases m with
    | nil => simp at hx
    | cons b m2 =>
      rw [List.zipWith_cons_cons] at hx
      rcases List.mem_cons.mp hx with rfl | hx2
      · exact h a (by simp) b (by simp)
      · exact ih (fun a2 ha2 b2 hb2 => h a2 (List.mem_cons_of_mem _ ha2) b2
          (List.mem_cons_of_mem _ hb2)) x hx2

theorem WF_setColVals (t : Table) (c : String) (vs : List Value)
    (hwf : WF t) : WF (setColVals t c vs) := by
  unfold setColVals
  by_cases hc : c ∈ t.cols
  · rw [if_pos hc]
    intro r hr
    refine zipWith_forall_mem (P := fun r2 : Row => r2.map Prod.fst = t.cols) ?_ r hr
    intro a ha b _
    rw [keys_replacePair, hwf a ha]
  · rw [if_neg hc]
    intro r hr
    refine zipWith_forall_mem (P := fun r2 : Row => r2.map Prod.fst = t.cols ++ [c]) ?_ r hr
    intro a ha b _
    rw [List.map_append, hwf a ha]
    rfl

/-! ### applyOp-level frame lemmas -/

theorem applyOp_cases (t : Table) (op : MetricOp) :
    applyOp t op = t ∨
    ∃ vs : List Value, vs.length = t.rows.length ∧
      applyOp t op = setColVals t (opName op) vs := by
  have htry : ∀ (n : String) (cell : Row → Except PyErr String) (caught : List PyErr)
      (fb : String), tryMetric t n cell caught fb = t ∨
      ∃ vs : List Value, vs.length = t.rows.length ∧
        tryMetric t n cell caught fb = setColVals t n vs := by
    intro n cell caught fb
    unfold tryMetric
    cases hm : mapEx cell t.rows with
    | ok ss =>
      refine Or.inr ⟨ss.map Value.str, ?_, rfl⟩
      rw [List.length_map]
      exact mapEx_ok_length hm
    | error e =>
      by_cases he : e ∈ caught
      · exact Or.inr ⟨List.replicate t.rows.length (Value.str fb),
          List.length_replicate _ _, by simp [he]⟩
      · exact Or.inl (by simp [he])
  cases op with
  | rate n a b =>
    by_cases hg : a ∈ t.cols ∧ b ∈ t.cols
    · have := htry n (fun r => rateCell (lookupV r a) (lookupV r b)) caughtRate "0.00%"
      simpa [applyOp, hg, opName] using this
    · exact Or.inl (by simp [applyOp, hg])
  | diff n a b =>
    by_cases hg : a ∈ t.cols ∧ b ∈ t.cols
    · have := htry n (fun r => diffCell (lookupV r a) (lookupV r b)) caughtDiff "N/A"
      simpa [applyOp, hg, opName] using this
    · exact Or.inl (by simp [applyOp, hg])
  | aerial n w l =>
    by_cases hg : w ∈ t.cols ∧ l ∈ t.cols
    · have := htry n (fun r => aerialCell (lookupV r w) (lookupV r l)) caughtRate "0.00%"
      simpa [applyOp, hg, opName] using this
    · exact Or.inl (by simp [applyOp, hg])
  | const n v =>
    exact Or.inr ⟨_, List.length_replicate _ _, rfl⟩

theorem rows_length_applyOp (t : Table) (op : MetricOp) :
    (applyOp t op).rows.length = t.rows.length := by
  rcases applyOp_cases t op with h | ⟨vs, hlen, h⟩
  · rw [h]
  · rw [h, rows_length_setColVals _ _ _ hlen]

theorem getCell_applyOp_ne (t : Table) (op : MetricOp) (c : String)
    (hne : c ≠ opName op) (i : Nat) :
    getCell (applyOp t op) c i = getCell t c i := by
  rcases applyOp_cases t op with h | ⟨vs, hlen, h⟩
  · rw [h]
  · rw [h, getCell_setColVals_ne _ _ _ _ hne hlen]

theorem WF_applyOp (t : Table) (op : MetricOp) (hwf : WF t) : WF (applyOp t op) := by
  rcases applyOp_cases t op with h | ⟨vs, hlen, h⟩
  · rw [h]; exact hwf
  · rw [h]; exact WF_setColVals _ _ _ hwf

theorem mem_cols_applyOp_mono (t : Table) (op : MetricOp) (c : String)
    (h : c ∈ t.cols) : c ∈ (applyOp t op).cols := by
  rcases applyOp_cases t op with he | ⟨vs, hlen, he⟩
  · rw [he]; exact h
  · rw [he, mem_cols_setColVals]; exact Or.inl h

theorem mem_cols_applyOp_ne (t : Table) (op : MetricOp) (c : String)
    (hne : c ≠ opName op) : c ∈ (applyOp t op).cols ↔ c ∈ t.cols := by
  rcases applyOp_cases t op with he | ⟨vs, hlen, he⟩
  · rw [he]
  · rw [he, mem_cols_setColVals]
    constructor
    · rintro (h | h)
      · exact h
      · exact absurd h hne
    · exact fun h => Or.inl h

theorem foldl_applyOp_rows_length (l : List MetricOp) (t : Table) :
    (l.foldl applyOp t).rows.length = t.rows.length := by
  induction l generalizing t with
  | nil => rfl
  | cons op l ih => rw [List.foldl_cons, ih, rows_length_applyOp]

theorem foldl_applyOp_WF (l : List MetricOp) (t : Table) (hwf : WF t) :
    WF (l.foldl applyOp t) := by
  induction l generalizing t with
  | nil => exact hwf
  | cons op l ih => exact ih _ (WF_applyOp _ _ hwf)

theorem foldl_applyOp_getCell_ne (l : List MetricOp) (t : Table) (c : String)
    (h : ∀ op ∈ l, c ≠ opName op) (i : Nat) :
    getCell (l.foldl applyOp t) c i = getCell t c i := by
  induction l generalizing t with
  | nil => rfl
  | cons op l ih =>
    rw [List.foldl_cons, ih _ (fun o ho => h o (List.mem_cons_of_mem _ ho)),
      getCell_applyOp_ne _ _ _ (h op (List.mem_cons_self _ _))]

theorem foldl_applyOp_mem_cols_mono (l : List MetricOp) (t : Table) (c : String)
    (h : c ∈ t.cols) : c ∈ (l.foldl applyOp t).cols := by
  induction l generalizing t with
  | nil => exact h
  | cons op l ih => exact ih _ (mem_cols_applyOp_mono _ _ _ h)

theorem foldl_applyOp_mem_cols_ne (l : List MetricOp) (t : Table) (c : String)
    (h : ∀ op ∈ l, c ≠ opName op) :
    c ∈ (l.foldl applyOp t).cols ↔ c ∈ t.cols := by
  induction l generalizing t with
  | nil => exact Iff.rfl
  | cons op l ih =>
    rw [List.foldl_cons, ih _ (fun o ho => h o (List.mem_cons_of_mem _ ho)),
      mem_cols_applyOp_ne _ _ _ (h op (List.mem_cons_self _ _))]

theorem FracV.isPos_isZero {q : FracV} (h : q.isPos = true) : q.isZero = false := by
  unfold FracV.isPos at h
  unfold FracV.isZero
  simp at h ⊢
  omega

theorem rateCell_num (qa qb : FracV) :
    rateCell (Value.num qa) (Value.num qb) =
      Except.ok (if qb.isPos then fmtFrac2 ((qa.div qb).mul ⟨100,1⟩) ++ "%" else "0.00%") := by
  by_cases h : qb.isPos
  · simp [rateCell, pyFloatOf, pfGtZero, pfDiv, pfMul, fmtPF2, h, FracV.isPos_isZero h,
      Bind.bind, Except.bind, Functor.map, Except.map, Pure.pure, Except.pure]
  · simp [rateCell, pyFloatOf, pfGtZero, h,
      Bind.bind, Except.bind, Functor.map, Except.map, Pure.pure, Except.pure]

theorem diffCell_num (qa qb : FracV) :
    diffCell (Value.num qa) (Value.num qb) = Except.ok (fmtFrac2 (qa.sub qb)) := by
  simp [diffCell, pdNotna, pyFloatOf, pfSub, fmtPF2,
    Bind.bind, Except.bind, Functor.map, Except.map, Pure.pure, Except.pure]

theorem diffCell_na_right (a : Value) :
    diffCell a Value.na = Except.ok "N/A" := by
  simp [diffCell, pdNotna, Pure.pure, Except.pure]

theorem pyFloatOf_error {v : Value} {e : PyErr} (h : pyFloatOf v = Except.error e) :
    e = PyErr.valueError := by
  unfold pyFloatOf at h
  split at h
  · cases h
  · cases h
  · split at h
    · cases h
    · cases h; rfl

theorem pfDiv_error {a b : PyFloat} {e : PyErr} (h : pfDiv a b = Except.error e) :
    e = PyErr.zeroDivisionError := by
  unfold pfDiv at h
  split at h
  · split at h
    · cases h; rfl
    · split at h <;> cases h
  · cases h

theorem rateCell_error_caught {a b : Value} {e : PyErr}
    (h : rateCell a b = Except.error e) : e ∈ caughtRate := by
  unfold rateCell at h
  cases hb : pyFloatOf b with
  | error eb =>
    rw [hb] at h
    simp only [Bind.bind, Except.bind] at h
    cases h
    simp [caughtRate, pyFloatOf_error hb]
  | ok fb =>
    rw [hb] at h
    simp only [Bind.bind, Except.bind] at h
    split at h
    · cases ha : pyFloatOf a with
      | error ea =>
        rw [ha] at h
        simp only [Bind.bind, Except.bind] at h
        cases h
        simp [caughtRate, pyFloatOf_error ha]
      | ok fa =>
        rw [ha] at h
        simp only [Bind.bind, Except.bind] at h
        cases hd : pfDiv fa fb with
        | error ed =>
          rw [hd] at h
          simp only [Functor.map, Except.map] at h
          cases h
          simp [caughtRate, pfDiv_error hd]
        | ok q =>
          rw [hd] at h
          simp only [Functor.map, Except.map] at h
          cases h
    · simp only [Pure.pure, Except.pure] at h
      cases h

theorem diffCell_error_caught {a b : Value} {e : PyErr}
    (h : diffCell a b = Except.error e) : e ∈ caughtDiff := by
  unfold diffCell at h
  split at h
  · cases ha : pyFloatOf a with
    | error ea =>
      rw [ha] at h
      simp only [Bind.bind, Except.bind] at h
      cases h
      simp [caughtDiff, pyFloatOf_error ha]
    | ok fa =>
      rw [ha] at h
      simp only [Bind.bind, Except.bind] at h
      cases hb : pyFloatOf b with
      | error eb =>
        rw [hb] at h
        simp only [Bind.bind, Except.bind] at h
        cases h
        simp [caughtDiff, pyFloatOf_error hb]
      | ok fb =>
        rw [hb] at h
        simp only [Bind.bind, Except.bind, Pure.pure, Except.pure] at h
        cases h
  · simp only [Pure.pure, Except.pure] at h
    cases h

theorem aerialCell_error_caught {w l : Value} {e : PyErr}
    (h : aerialCell w l = Except.error e) : e ∈ caughtRate := by
  unfold aerialCell at h
  cases hw : pyFloatOf w with
  | error ew =>
    rw [hw] at h
    simp only [Bind.bind, Except.bind] at h
    cases h
    simp [caughtRate, pyFloatOf_error hw]
  | ok fw =>
    rw [hw] at h
    simp only [Bind.bind, Except.bind] at h
    cases hl : pyFloatOf l with
    | error el =>
      rw [hl] at h
      simp only [Bind.bind, Except.bind] at h
      cases h
      simp [caughtRate, pyFloatOf_error hl]
    | ok fl =>
      rw [hl] at h
      simp only [Bind.bind, Except.bind] at h
      split at h
      · cases hd : pfDiv fw (pfAdd fw fl) with
        | error ed =>
          rw [hd] at h
          simp only [Functor.map, Except.map] at h
          cases h
          simp [caughtRate, pfDiv_error hd]
        | ok q =>
          rw [hd] at h
          simp only [Functor.map, Except.map] at h
          cases h
      · simp only [Pure.pure, Except.pure] at h
        cases h

theorem mapEx_ok_exists {f : α → Except ε β} :
    ∀ {l : List α}, (∀ a ∈ l, ∃ b, f a = Except.ok b) →
      ∃ bs, mapEx f l = Except.ok bs := by
  intro l
  induction l with
  | nil => exact fun _ => ⟨[], rfl⟩
  | cons a l ih =>
    intro h
    obtain ⟨b, hb⟩ := h a (List.mem_cons_self a l)
    obtain ⟨bs, hbs⟩ := ih (fun x hx => h x (List.mem_cons_of_mem a hx))
    refine ⟨b :: bs, ?_⟩
    unfold mapEx
    rw [hb, hbs]

theorem getCell_row_mem (t : Table) (r : Row) (hr : r ∈ t.rows) :
    ∃ i, i < t.rows.length ∧ t.rows.getD i [] = r := by
  obtain ⟨i, hi, hget⟩ := List.mem_iff_getElem.mp hr
  refine ⟨i, hi, ?_⟩
  rw [List.getD_eq_getElem?_getD, List.getElem?_eq_getElem hi]
  exact hget

theorem rows_getD_mem (t : Table) (i : Nat) (hi : i < t.rows.length) :
    t.rows.getD i [] ∈ t.rows := by
  rw [List.getD_eq_getElem?_getD, List.getElem?_eq_getElem hi]
  exact List.getElem_mem hi

theorem lookupV_getD_eq_getCell (t : Table) (c : String) (i : Nat) :
    lookupV (t.rows.getD i []) c = getCell t c i := rfl

/-! ### Value of a metric column after one statement -/

theorem getCell_applyOp_rate (t : Table) (n a b : String) (hwf : WF t)
    (ha : a ∈ t.cols) (hb : b ∈ t.cols)
    (hnum : ∀ j, j < t.rows.length →
      (∃ q, getCell t a j = Value.num q) ∧ (∃ q, getCell t b j = Value.num q))
    (i : Nat) (hi : i < t.rows.length) (qa qb : FracV)
    (hqa : getCell t a i = Value.num qa) (hqb : getCell t b i = Value.num qb) :
    getCell (applyOp t (MetricOp.rate n a b)) n i =
      Value.str (if qb.isPos then fmtFrac2 ((qa.div qb).mul ⟨100,1⟩) ++ "%" else "0.00%") := by
  have hcell : ∀ r ∈ t.rows, ∃ s, rateCell (lookupV r a) (lookupV r b) = Except.ok s := by
    intro r hr
    obtain ⟨j, hj, hrj⟩ := getCell_row_mem t r hr
    obtain ⟨⟨q1, hq1⟩, ⟨q2, hq2⟩⟩ := hnum j hj
    rw [← hrj, lookupV_getD_eq_getCell, lookupV_getD_eq_getCell, hq1, hq2]
    exact ⟨_, rateCell_num q1 q2⟩
  obtain ⟨ss, hss⟩ := mapEx_ok_exists hcell
  have hlen : ss.length = t.rows.length := mapEx_ok_length hss
  have happ : applyOp t (MetricOp.rate n a b) = setColVals t n (ss.map Value.str) := by
    simp [applyOp, ha, hb, tryMetric, hss]
  rw [happ, getCell_setColVals_self _ _ _ hwf (by rw [List.length_map]; exact hlen) i hi]
  have hv := mapEx_ok_getD [] "" hss i hi
  rw [lookupV_getD_eq_getCell, lookupV_getD_eq_getCell, hqa, hqb, rateCell_num] at hv
  have hs : ss.getD i "" = if qb.isPos then fmtFrac2 ((qa.div qb).mul ⟨100,1⟩) ++ "%"
      else "0.00%" := by
    injection hv with h2
    exact h2.symm
  rw [getD_map Value.str i (by omega) ""]
  rw [hs]

theorem getCell_applyOp_diff_aux (t : Table) (n a b : String) (hwf : WF t)
    (ha : a ∈ t.cols) (hb : b ∈ t.cols)
    (hok : ∀ j, j < t.rows.length → getCell t b j = Value.na ∨
      ((∃ q, getCell t a j = Value.num q) ∧ (∃ q, getCell t b j = Value.num q)))
    (i : Nat) (hi : i < t.rows.length) (s : String)
    (hs : diffCell (getCell t a i) (getCell t b i) = Except.ok s) :
    getCell (applyOp t (MetricOp.diff n a b)) n i = Value.str s := by
  have hcell : ∀ r ∈ t.rows, ∃ s2, diffCell (lookupV r a) (lookupV r b) = Except.ok s2 := by
    intro r hr
    obtain ⟨j, hj, hrj⟩ := getCell_row_mem t r hr
    rw [← hrj, lookupV_getD_eq_getCell, lookupV_getD_eq_getCell]
    rcases hok j hj with hna | ⟨⟨q1, hq1⟩, ⟨q2, hq2⟩⟩
    · rw [hna]
      exact ⟨_, diffCell_na_right _⟩
    · rw [hq1, hq2]
      exact ⟨_, diffCell_num q1 q2⟩
  obtain ⟨ss, hss⟩ := mapEx_ok_exists hcell
  have hlen : ss.length = t.rows.length := mapEx_ok_length hss
  have happ : applyOp t (MetricOp.diff n a b) = setColVals t n (ss.map Value.str) := by
    simp [applyOp, ha, hb, tryMetric, hss]
  rw [happ, getCell_setColVals_self _ _ _ hwf (by rw [List.length_map]; exact hlen) i hi]
  have hv := mapEx_ok_getD [] "" hss i hi
  rw [lookupV_getD_eq_getCell, lookupV_getD_eq_getCell, hs] at hv
  have hv2 : ss.getD i "" = s := by
    injection hv with h2
    exact h2.symm
  rw [getD_map Value.str i (by omega) "", hv2]

theorem getD_replicate_lt (n : Nat) (v : α) (i : Nat) (hi : i < n) (d : α) :
    (List.replicate n v).getD i d = v := by
  rw [List.getD_eq_getElem?_getD, List.getElem?_replicate, if_pos hi]
  rfl

theorem getCell_applyOp_const (t : Table) (n v : String) (hwf : WF t)
    (i : Nat) (hi : i < t.rows.length) :
    getCell (applyOp t (MetricOp.const n v)) n i = Value.str v := by
  have : applyOp t (MetricOp.const n v) =
      setColVals t n (List.replicate t.rows.length (Value.str v)) := rfl
  rw [this, getCell_setColVals_self _ _ _ hwf (List.length_replicate _ _) i hi,
    getD_replicate_lt _ _ _ hi]

theorem lt_length_of_getCell_num {t : Table} {c : String} {i : Nat} {q : FracV}
    (h : getCell t c i = Value.num q) : i < t.rows.length := by
  by_contra hge
  rw [getCell_out_of_range t c i (by omega)] at h
  cases h

/-- Value of a rate column after the whole of `calculate_derived_metrics`,
for a decomposition of the statement list around the rate statement. -/
theorem getCell_derive_rate (pre post : List MetricOp) (n a b : String) (t : Table)
    (hsplit : derivedOps = pre ++ MetricOp.rate n a b :: post)
    (hpostn : ∀ o ∈ post, n ≠ opName o)
    (hprea : ∀ o ∈ pre, a ≠ opName o) (hpreb : ∀ o ∈ pre, b ≠ opName o)
    (hwf : WF t) (ha : a ∈ t.cols) (hb : b ∈ t.cols)
    (hnum : ∀ j, j < t.rows.length →
      (∃ q, getCell t a j = Value.num q) ∧ (∃ q, getCell t b j = Value.num q))
    (i : Nat) (qa qb : FracV)
    (hqa : getCell t a i = Value.num qa) (hqb : getCell t b i = Value.num qb) :
    getCell (calculate_derived_metrics t) n i =
      Value.str (if qb.isPos then fmtFrac2 ((qa.div qb).mul ⟨100,1⟩) ++ "%" else "0.00%") := by
  have hi : i < t.rows.length := lt_length_of_getCell_num hqa
  have hwfu : WF (pre.foldl applyOp t) := foldl_applyOp_WF pre t hwf
  have hlenu : (pre.foldl applyOp t).rows.length = t.rows.length :=
    foldl_applyOp_rows_length pre t
  have hau : a ∈ (pre.foldl applyOp t).cols := foldl_applyOp_mem_cols_mono pre t a ha
  have hbu : b ∈ (pre.foldl applyOp t).cols := foldl_applyOp_mem_cols_mono pre t b hb
  have hca : ∀ j, getCell (pre.foldl applyOp t) a j = getCell t a j :=
    foldl_applyOp_getCell_ne pre t a hprea
  have hcb : ∀ j, getCell (pre.foldl applyOp t) b j = getCell t b j :=
    foldl_applyOp_getCell_ne pre t b hpreb
  have hnumu : ∀ j, j < (pre.foldl applyOp t).rows.length →
      (∃ q, getCell (pre.foldl applyOp t) a j = Value.num q) ∧
      (∃ q, getCell (pre.foldl applyOp t) b j = Value.num q) := by
    intro j hj
    rw [hlenu] at hj
    obtain ⟨⟨q1, hq1⟩, ⟨q2, hq2⟩⟩ := hnum j hj
    exact ⟨⟨q1, by rw [hca, hq1]⟩, ⟨q2, by rw [hcb, hq2]⟩⟩
  have hmain : calculate_derived_metrics t =
      post.foldl applyOp (applyOp (pre.foldl applyOp t) (MetricOp.rate n a b)) := by
    rw [calculate_derived_metrics, hsplit, List.foldl_append, List.foldl_cons]
  rw [hmain, foldl_applyOp_getCell_ne post _ n hpostn i]
  exact getCell_applyOp_rate _ n a b hwfu hau hbu hnumu i (by omega) qa qb
    (by rw [hca, hqa]) (by rw [hcb, hqb])

/-- Value of a differential column after the whole of
`calculate_derived_metrics`, around its statement's position. -/
theorem getCell_derive_diff (pre post : List MetricOp) (n a b : String) (t : Table)
    (hsplit : derivedOps = pre ++ MetricOp.diff n a b :: post)
    (hpostn : ∀ o ∈ post, n ≠ opName o)
    (hprea : ∀ o ∈ pre, a ≠ opName o) (hpreb : ∀ o ∈ pre, b ≠ opName o)
    (hwf : WF t) (ha : a ∈ t.cols) (hb : b ∈ t.cols)
    (hok : ∀ j, j < t.rows.length → getCell t b j = Value.na ∨
      ((∃ q, getCell t a j = Value.num q) ∧ (∃ q, getCell t b j = Value.num q)))
    (i : Nat) (hi : i < t.rows.length) (s : String)
    (hs : diffCell (getCell t a i) (getCell t b i) = Except.ok s) :
    getCell (calculate_derived_metrics t) n i = Value.str s := by
  have hwfu : WF (pre.foldl applyOp t) := foldl_applyOp_WF pre t hwf
  have hlenu : (pre.foldl applyOp t).rows.length = t.rows.length :=
    foldl_applyOp_rows_length pre t
  have hau : a ∈ (pre.foldl applyOp t).cols := foldl_applyOp_mem_cols_mono pre t a ha
  have hbu : b ∈ (pre.foldl applyOp t).cols := foldl_applyOp_mem_cols_mono pre t b hb
  have hca : ∀ j, getCell (pre.foldl applyOp t) a j = getCell t a j :=
    foldl_applyOp_getCell_ne pre t a hprea
  have hcb : ∀ j, getCell (pre.foldl applyOp t) b j = getCell t b j :=
    foldl_applyOp_getCell_ne pre t b hpreb
  have hoku : ∀ j, j < (pre.foldl applyOp t).rows.length →
      getCell (pre.foldl applyOp t) b j = Value.na ∨
      ((∃ q, getCell (pre.foldl applyOp t) a j = Value.num q) ∧
       (∃ q, getCell (pre.foldl applyOp t) b j = Value.num q)) := by
    intro j hj
    rw [hlenu] at hj
    rcases hok j hj with hna | ⟨⟨q1, hq1⟩, ⟨q2, hq2⟩⟩
    · exact Or.inl (by rw [hcb, hna])
    · exact Or.inr ⟨⟨q1, by rw [hca, hq1]⟩, ⟨q2, by rw [hcb, hq2]⟩⟩
  have hmain : calculate_derived_metrics t =
      post.foldl applyOp (applyOp (pre.foldl applyOp t) (MetricOp.diff n a b)) := by
    rw [calculate_derived_metrics, hsplit, List.foldl_append, List.foldl_cons]
  rw [hmain, foldl_applyOp_getCell_ne post _ n hpostn i]
  exact getCell_applyOp_diff_aux _ n a b hwfu hau hbu hoku i (by omega) s
    (by rw [hca, hcb]; exact hs)

/-- Numeric cell test (used to state per-row hypotheses decidably). -/
def isNumV : Value → Bool
  | Value.num _ => true
  | _ => false

theorem isNumV_iff {v : Value} : isNumV v = true ↔ ∃ q, v = Value.num q := by
  cases v <;> simp [isNumV]

/-- The counterexample table for C4: row 0 is perfectly numeric with a
positive denominator, row 1 has a non-numeric denominator cell. -/
def c4Table : Table :=
  ⟨["Goals", "Sh"],
   [[("Goals", Value.num ⟨1, 1⟩), ("Sh", Value.num ⟨2, 1⟩)],
    [("Goals", Value.num ⟨1, 1⟩), ("Sh", Value.str "abc")]]⟩

/-- C4 counterexample: in `c4Table`, row 0 has Goals = 1 and Sh = 2 > 0, so
the claim demands `round(1/2*100, 2)` formatted, i.e. "50.00%"; but the
non-numeric "abc" in row 1 makes the whole-column `except` branch fire and
row 0's Shooting_Conversion_Rate comes out as the fallback "0.00%" instead.
The claim's per-row contract is false on the code. -/
theorem rate_metric_column_corruption :
    getCell c4Table "Goals" 0 = Value.num ⟨1, 1⟩ ∧
    getCell c4Table "Sh" 0 = Value.num ⟨2, 1⟩ ∧
    FracV.isPos ⟨2, 1⟩ = true ∧
    fmtFrac2 (FracV.mul (FracV.div ⟨1, 1⟩ ⟨2, 1⟩) ⟨100, 1⟩) ++ "%" = "50.00%" ∧
    getCell (calculate_derived_metrics c4Table) "Shooting_Conversion_Rate" 0 =
      Value.str "0.00%" ∧
    Value.str "0.00%" ≠ Value.str "50.00%" := by
  refine ⟨rfl, rfl, rfl, by decide, by decide, by decide⟩

/-- C4 (amended): when every row's numerator and denominator cells are numeric,
each rate column (Shooting_Conversion_Rate from Goals/Sh,
Pass_Completion_Rate from Cmp/Att) is per-row correct: the formatted
`round(a/b*100, 2)` percentage when `b > 0`, and "0.00%" otherwise; and a rate
lambda can only raise error kinds its `except` clause catches, so the
computation never propagates an exception. -/
theorem rate_metrics_per_row (t : Table) (hwf : WF t)
    (nab : String × String × String)
    (hmem : nab ∈ [("Shooting_Conversion_Rate", "Goals", "Sh"),
                   ("Pass_Completion_Rate", "Cmp", "Att")])
    (ha : nab.2.1 ∈ t.cols) (hb : nab.2.2 ∈ t.cols)
    (hnum : ∀ j, j < t.rows.length →
      isNumV (getCell t nab.2.1 j) = true ∧ isNumV (getCell t nab.2.2 j) = true)
    (i : Nat) (qa qb : FracV)
    (hqa : getCell t nab.2.1 i = Value.num qa) (hqb : getCell t nab.2.2 i = Value.num qb) :
    (∀ (x y : Value) (e : PyErr), rateCell x y = Except.error e → e ∈ caughtRate) ∧
    getCell (calculate_derived_metrics t) nab.1 i =
      Value.str (if qb.isPos then fmtFrac2 ((qa.div qb).mul ⟨100, 1⟩) ++ "%" else "0.00%") := by
  refine ⟨fun x y e h => rateCell_error_caught h, ?_⟩
  have hnum2 : ∀ j, j < t.rows.length →
      (∃ q, getCell t nab.2.1 j = Value.num q) ∧ (∃ q, getCell t nab.2.2 j = Value.num q) := by
    intro j hj
    obtain ⟨h1, h2⟩ := hnum j hj
    exact ⟨isNumV_iff.mp h1, isNumV_iff.mp h2⟩
  simp only [List.mem_cons, List.not_mem_nil, or_false] at hmem
  rcases hmem with rfl | rfl
  · exact getCell_derive_rate (derivedOps.take 0) (derivedOps.drop 1) _ _ _ t rfl
      (by decide) (by decide) (by decide) hwf ha hb hnum2 i qa qb hqa hqb
  · exact getCell_derive_rate (derivedOps.take 1) (derivedOps.drop 2) _ _ _ t rfl
      (by decide) (by decide) (by decide) hwf ha hb hnum2 i qa qb hqa hqb

/-- The all-numeric table used to witness the amended C4. -/
def c4Witness : Table :=
  ⟨["Goals", "Sh"], [[("Goals", Value.num ⟨1, 1⟩), ("Sh", Value.num ⟨2, 1⟩)]]⟩

/-- Witness for C4's amended theorem at a concrete table. -/
theorem rate_metrics_per_row_witness :
    WF c4Witness ∧
    getCell (calculate_derived_metrics c4Witness) "Shooting_Conversion_Rate" 0 =
      Value.str "50.00%" := by
  refine ⟨by decide, ?_⟩
  have h := (rate_metrics_per_row c4Witness (by decide)
    ("Shooting_Conversion_Rate", "Goals", "Sh") (by decide) (by decide) (by decide)
    (by decide) 0 ⟨1, 1⟩ ⟨2, 1⟩ rfl rfl).2
  rw [h]
  decide

/-- The counterexample table for C5: one row whose numerator (Goals) is
missing and whose xG is numeric. -/
def c5Table : Table :=
  ⟨["Goals", "xG"], [[("Goals", Value.na), ("xG", Value.num ⟨1, 1⟩)]]⟩

/-- C5 counterexample: in `c5Table` row 0 the numerator Goals is missing, so
the claim demands "N/A"; but the code only guards `pd.notna(row["xG"])`, and
`float(nan) - 1.0` formats as "nan", so xG_Overperformance is "nan", not
"N/A". -/
theorem diff_metric_nan_leak :
    getCell c5Table "Goals" 0 = Value.na ∧
    getCell (calculate_derived_metrics c5Table) "xG_Overperformance" 0 = Value.str "nan" ∧
    Value.str "nan" ≠ Value.str "N/A" := by
  refine ⟨rfl, by decide, by decide⟩

/-- C5 (amended): for the differential columns (xG_Overperformance from
Goals/xG, xA_Overperformance from Assists/xA), when in every row the
subtrahend is either missing or numeric and the minuend is numeric whenever
the subtrahend is numeric: a row with both values numeric gets the formatted
`round(a-b, 2)` string, a row with a missing subtrahend gets "N/A" (a missing
minuend with numeric subtrahend instead yields "nan", and a non-numeric
string in any row resets the whole column to "N/A"); and a differential
lambda can only raise error kinds its `except` clause catches, so the
computation never propagates an exception. -/
theorem diff_metrics_per_row (t : Table) (hwf : WF t)
    (nab : String × String × String)
    (hmem : nab ∈ [("xG_Overperformance", "Goals", "xG"),
                   ("xA_Overperformance", "Assists", "xA")])
    (ha : nab.2.1 ∈ t.cols) (hb : nab.2.2 ∈ t.cols)
    (hok : ∀ j, j < t.rows.length → getCell t nab.2.2 j = Value.na ∨
      (isNumV (getCell t nab.2.1 j) = true ∧ isNumV (getCell t nab.2.2 j) = true))
    (i : Nat) :
    (∀ (x y : Value) (e : PyErr), diffCell x y = Except.error e → e ∈ caughtDiff) ∧
    (∀ qa qb, getCell t nab.2.1 i = Value.num qa → getCell t nab.2.2 i = Value.num qb →
      getCell (calculate_derived_metrics t) nab.1 i = Value.str (fmtFrac2 (qa.sub qb))) ∧
    (i < t.rows.length → getCell t nab.2.2 i = Value.na →
      getCell (calculate_derived_metrics t) nab.1 i = Value.str "N/A") := by
  refine ⟨fun x y e h => diffCell_error_caught h, ?_, ?_⟩ <;>
  · have hok2 : ∀ j, j < t.rows.length → getCell t nab.2.2 j = Value.na ∨
        ((∃ q, getCell t nab.2.1 j = Value.num q) ∧
         (∃ q, getCell t nab.2.2 j = Value.num q)) := by
      intro j hj
      rcases hok j hj with h | ⟨h1, h2⟩
      · exact Or.inl h
      · exact Or.inr ⟨isNumV_iff.mp h1, isNumV_iff.mp h2⟩
    simp only [List.mem_cons, List.not_mem_nil, or_false] at hmem
    first
    | (intro qa qb hqa hqb
       rcases hmem with rfl | rfl
       · exact getCell_derive_diff (derivedOps.take 2) (derivedOps.drop 3) _ _ _ t rfl
           (by decide) (by decide) (by decide) hwf ha hb hok2 i
           (lt_length_of_getCell_num hqa) _ (by rw [hqa, hqb]; exact diffCell_num qa qb)
       · exact getCell_derive_diff (derivedOps.take 3) (derivedOps.drop 4) _ _ _ t rfl
           (by decide) (by decide) (by decide) hwf ha hb hok2 i
           (lt_length_of_getCell_num hqa) _ (by rw [hqa, hqb]; exact diffCell_num qa qb))
    | (intro hi hna
       rcases hmem with rfl | rfl
       · exact getCell_derive_diff (derivedOps.take 2) (derivedOps.drop 3) _ _ _ t rfl
           (by decide) (by decide) (by decide) hwf ha hb hok2 i hi _
           (by rw [hna]; exact diffCell_na_right _)
       · exact getCell_derive_diff (derivedOps.take 3) (derivedOps.drop 4) _ _ _ t rfl
           (by decide) (by decide) (by decide) hwf ha hb hok2 i hi _
           (by rw [hna]; exact diffCell_na_right _))

/-- The table used to witness the amended C5: xG missing in row 0, numeric in
row 1. -/
def c5Witness : Table :=
  ⟨["Goals", "xG"],
   [[("Goals", Value.num ⟨2, 1⟩), ("xG", Value.na)],
    [("Goals", Value.num ⟨2, 1⟩), ("xG", Value.num ⟨7, 2⟩)]]⟩

/-- Witness for C5's amended theorem at a concrete table. -/
theorem diff_metrics_per_row_witness :
    WF c5Witness ∧
    getCell (calculate_derived_metrics c5Witness) "xG_Overperformance" 0 = Value.str "N/A" ∧
    getCell (calculate_derived_metrics c5Witness) "xG_Overperformance" 1 =
      Value.str "-1.50" := by
  refine ⟨by decide, ?_, ?_⟩
  · have h := (diff_metrics_per_row c5Witness (by decide)
      ("xG_Overperformance", "Goals", "xG") (by decide) (by decide) (by decide)
      (by decide) 0).2.2 (by decide) rfl
    exact h
  · have h := (diff_metrics_per_row c5Witness (by decide)
      ("xG_Overperformance", "Goals", "xG") (by decide) (by decide) (by decide)
      (by decide) 1).2.1 ⟨2, 1⟩ ⟨7, 2⟩ rfl rfl
    rw [h]
    decide

theorem mapEx_error_mem {f : α → Except ε β} :
    ∀ {l : List α} {e : ε}, mapEx f l = Except.error e → ∃ a ∈ l, f a = Except.error e := by
  intro l
  induction l with
  | nil => intro e h; cases h
  | cons a l ih =>
    intro e h
    unfold mapEx at h
    cases hfa : f a with
    | error e2 =>
      rw [hfa] at h
      injection h with h2
      exact ⟨a, List.mem_cons_self _ _, h2 ▸ hfa⟩
    | ok b =>
      rw [hfa] at h
      cases hml : mapEx f l with
      | error e2 =>
        rw [hml] at h
        injection h with h2
        obtain ⟨x, hx, hfx⟩ := ih hml
        exact ⟨x, List.mem_cons_of_mem _ hx, h2 ▸ hfx⟩
      | ok bs => rw [hml] at h; cases h

theorem tryMetric_eq_setColVals (t : Table) (n : String) (cell : Row → Except PyErr String)
    (caught : List PyErr) (fb : String)
    (hcaught : ∀ r ∈ t.rows, ∀ e, cell r = Except.error e → e ∈ caught) :
    ∃ vs : List Value, vs.length = t.rows.length ∧
      tryMetric t n cell caught fb = setColVals t n vs := by
  unfold tryMetric
  cases hm : mapEx cell t.rows with
  | ok ss =>
    refine ⟨ss.map Value.str, ?_, rfl⟩
    rw [List.length_map]
    exact mapEx_ok_length hm
  | error e =>
    obtain ⟨r, hr, hfr⟩ := mapEx_error_mem hm
    have he : e ∈ caught := hcaught r hr e hfr
    exact ⟨List.replicate t.rows.length (Value.str fb), List.length_replicate _ _,
      by simp [he]⟩

theorem mem_cols_applyOp_self (t : Table) (op : MetricOp)
    (hg : ∀ s ∈ opSources op, s ∈ t.cols) : opName op ∈ (applyOp t op).cols := by
  cases op with
  | rate n a b =>
    have hab : a ∈ t.cols ∧ b ∈ t.cols := ⟨hg a (by simp [opSources]), hg b (by simp [opSources])⟩
    obtain ⟨vs, hlen, heq⟩ := tryMetric_eq_setColVals t n
      (fun r => rateCell (lookupV r a) (lookupV r b)) caughtRate "0.00%"
      (fun r _ e he => rateCell_error_caught he)
    simp only [applyOp, hab, and_self, if_true]
    rw [heq, mem_cols_setColVals]
    exact Or.inr rfl
  | diff n a b =>
    have hab : a ∈ t.cols ∧ b ∈ t.cols := ⟨hg a (by simp [opSources]), hg b (by simp [opSources])⟩
    obtain ⟨vs, hlen, heq⟩ := tryMetric_eq_setColVals t n
      (fun r => diffCell (lookupV r a) (lookupV r b)) caughtDiff "N/A"
      (fun r _ e he => diffCell_error_caught he)
    simp only [applyOp, hab, and_self, if_true]
    rw [heq, mem_cols_setColVals]
    exact Or.inr rfl
  | aerial n w l =>
    have hab : w ∈ t.cols ∧ l ∈ t.cols := ⟨hg w (by simp [opSources]), hg l (by simp [opSources])⟩
    obtain ⟨vs, hlen, heq⟩ := tryMetric_eq_setColVals t n
      (fun r => aerialCell (lookupV r w) (lookupV r l)) caughtRate "0.00%"
      (fun r _ e he => aerialCell_error_caught he)
    simp only [applyOp, hab, and_self, if_true]
    rw [heq, mem_cols_setColVals]
    exact Or.inr rfl
  | const n v =>
    show n ∈ (setColVals t n _).cols
    rw [mem_cols_setColVals]
    exact Or.inr rfl

theorem applyOp_not_guard (t : Table) (op : MetricOp)
    (hng : ¬ ∀ s ∈ opSources op, s ∈ t.cols) : applyOp t op = t := by
  cases op with
  | rate n a b =>
    have : ¬ (a ∈ t.cols ∧ b ∈ t.cols) := by
      intro ⟨h1, h2⟩
      exact hng (by intro s hs; simp only [opSources, List.mem_cons, List.not_mem_nil,
        or_false] at hs; rcases hs with rfl | rfl <;> assumption)
    simp [applyOp, this]
  | diff n a b =>
    have : ¬ (a ∈ t.cols ∧ b ∈ t.cols) := by
      intro ⟨h1, h2⟩
      exact hng (by intro s hs; simp only [opSources, List.mem_cons, List.not_mem_nil,
        or_false] at hs; rcases hs with rfl | rfl <;> assumption)
    simp [applyOp, this]
  | aerial n w l =>
    have : ¬ (w ∈ t.cols ∧ l ∈ t.cols) := by
      intro ⟨h1, h2⟩
      exact hng (by intro s hs; simp only [opSources, List.mem_cons, List.not_mem_nil,
        or_false] at hs; rcases hs with rfl | rfl <;> assumption)
    simp [applyOp, this]
  | const n v =>
    exact absurd (by intro s hs; simp [opSources] at hs) hng

/-- Column membership in the output of `calculate_derived_metrics` around one
statement's position: added when its guard holds, untouched otherwise. -/
theorem derive_adds_iff (pre post : List MetricOp) (op : MetricOp) (t : Table)
    (hsplit : derivedOps = pre ++ op :: post)
    (hsrcs : ∀ s ∈ opSources op, ∀ o ∈ derivedOps, s ≠ opName o)
    (hpre : ∀ o ∈ pre, opName op ≠ opName o)
    (hpost : ∀ o ∈ post, opName op ≠ opName o) :
    ((∀ s ∈ opSources op, s ∈ t.cols) → opName op ∈ (calculate_derived_metrics t).cols) ∧
    (¬ (∀ s ∈ opSources op, s ∈ t.cols) →
      (opName op ∈ (calculate_derived_metrics t).cols ↔ opName op ∈ t.cols)) := by
  have hmain : calculate_derived_metrics t =
      post.foldl applyOp (applyOp (pre.foldl applyOp t) op) := by
    rw [calculate_derived_metrics, hsplit, List.foldl_append, List.foldl_cons]
  have hsrcu : ∀ s ∈ opSources op, (s ∈ (pre.foldl applyOp t).cols ↔ s ∈ t.cols) := by
    intro s hs
    exact foldl_applyOp_mem_cols_ne pre t s
      (fun o ho => hsrcs s hs o (hsplit ▸ List.mem_append_left _ ho))
  constructor
  · intro hg
    have hgu : ∀ s ∈ opSources op, s ∈ (pre.foldl applyOp t).cols :=
      fun s hs => (hsrcu s hs).mpr (hg s hs)
    rw [hmain]
    exact foldl_applyOp_mem_cols_mono post _ _ (mem_cols_applyOp_self _ op hgu)
  · intro hng
    have hngu : ¬ ∀ s ∈ opSources op, s ∈ (pre.foldl applyOp t).cols :=
      fun hgu => hng (fun s hs => (hsrcu s hs).mp (hgu s hs))
    rw [hmain, applyOp_not_guard _ op hngu, foldl_applyOp_mem_cols_ne post _ _ hpost,
      foldl_applyOp_mem_cols_ne pre t _ hpre]

/-- Value of a placeholder column after the whole of
`calculate_derived_metrics`, around its statement's position. -/
theorem getCell_derive_const (pre post : List MetricOp) (n v : String) (t : Table)
    (hsplit : derivedOps = pre ++ MetricOp.const n v :: post)
    (hpost : ∀ o ∈ post, n ≠ opName o)
    (hwf : WF t) (i : Nat) (hi : i < t.rows.length) :
    getCell (calculate_derived_metrics t) n i = Value.str v := by
  have hmain : calculate_derived_metrics t =
      post.foldl applyOp (applyOp (pre.foldl applyOp t) (MetricOp.const n v)) := by
    rw [calculate_derived_metrics, hsplit, List.foldl_append, List.foldl_cons]
  rw [hmain, foldl_applyOp_getCell_ne post _ n hpost i]
  exact getCell_applyOp_const _ n v (foldl_applyOp_WF pre t hwf) i
    (by rw [foldl_applyOp_rows_length]; omega)

/-- C7: in `calculate_derived_metrics`, a derived metric column is added iff
both of its named source columns are present in the input schema (a metric
whose guard fails is skipped entirely: its column is in the output iff it was
already in the input), and the seven placeholder columns are always added with
"N/A" on every row. -/
theorem derive_schema (t : Table) (hwf : WF t) :
    (∀ op ∈ derivedOps,
      ((∀ s ∈ opSources op, s ∈ t.cols) →
        opName op ∈ (calculate_derived_metrics t).cols) ∧
      (¬ (∀ s ∈ opSources op, s ∈ t.cols) →
        (opName op ∈ (calculate_derived_metrics t).cols ↔ opName op ∈ t.cols))) ∧
    (∀ p ∈ placeholderNames, p ∈ (calculate_derived_metrics t).cols ∧
      ∀ i, i < t.rows.length →
        getCell (calculate_derived_metrics t) p i = Value.str "N/A") := by
  constructor
  · intro op hop
    simp only [derivedOps, List.mem_cons, List.not_mem_nil, or_false] at hop
    rcases hop with rfl | rfl | rfl | rfl | rfl | rfl | rfl | rfl | rfl | rfl | rfl | rfl | rfl
    · exact derive_adds_iff (derivedOps.take 0) (derivedOps.drop 1) _ t rfl
        (by decide) (by decide) (by decide)
    · exact derive_adds_iff (derivedOps.take 1) (derivedOps.drop 2) _ t rfl
        (by decide) (by decide) (by decide)
    · exact derive_adds_iff (derivedOps.take 2) (derivedOps.drop 3) _ t rfl
        (by decide) (by decide) (by decide)
    · exact derive_adds_iff (derivedOps.take 3) (derivedOps.drop 4) _ t rfl
        (by decide) (by decide) (by decide)
    · exact derive_adds_iff (derivedOps.take 4) (derivedOps.drop 5) _ t rfl
        (by decide) (by decide) (by decide)
    · exact derive_adds_iff (derivedOps.take 5) (derivedOps.drop 6) _ t rfl
        (by decide) (by decide) (by decide)
    · exact derive_adds_iff (derivedOps.take 6) (derivedOps.drop 7) _ t rfl
        (by decide) (by decide) (by decide)
    · exact derive_adds_iff (derivedOps.take 7) (derivedOps.drop 8) _ t rfl
        (by decide) (by decide) (by decide)
    · exact derive_adds_iff (derivedOps.take 8) (derivedOps.drop 9) _ t rfl
        (by decide) (by decide) (by decide)
    · exact derive_adds_iff (derivedOps.take 9) (derivedOps.drop 10) _ t rfl
        (by decide) (by decide) (by decide)
    · exact derive_adds_iff (derivedOps.take 10) (derivedOps.drop 11) _ t rfl
        (by decide) (by decide) (by decide)
    · exact derive_adds_iff (derivedOps.take 11) (derivedOps.drop 12) _ t rfl
        (by decide) (by decide) (by decide)
    · exact derive_adds_iff (derivedOps.take 12) (derivedOps.drop 13) _ t rfl
        (by decide) (by decide) (by decide)
  · intro p hp
    simp only [placeholderNames, List.mem_cons, List.not_mem_nil, or_false] at hp
    rcases hp with rfl | rfl | rfl | rfl | rfl | rfl | rfl
    · exact ⟨(derive_adds_iff (derivedOps.take 6) (derivedOps.drop 7) _ t rfl
          (by decide) (by decide) (by decide)).1 (by intro s hs; simp [opSources] at hs),
        fun i hi => getCell_derive_const (derivedOps.take 6) (derivedOps.drop 7)
          _ _ t rfl (by decide) hwf i hi⟩
    · exact ⟨(derive_adds_iff (derivedOps.take 7) (derivedOps.drop 8) _ t rfl
          (by decide) (by decide) (by decide)).1 (by intro s hs; simp [opSources] at hs),
        fun i hi => getCell_derive_const (derivedOps.take 7) (derivedOps.drop 8)
          _ _ t rfl (by decide) hwf i hi⟩
    · exact ⟨(derive_adds_iff (derivedOps.take 8) (derivedOps.drop 9) _ t rfl
          (by decide) (by decide) (by decide)).1 (by intro s hs; simp [opSources] at hs),
        fun i hi => getCell_derive_const (derivedOps.take 8) (derivedOps.drop 9)
          _ _ t rfl (by decide) hwf i hi⟩
    · exact ⟨(derive_adds_iff (derivedOps.take 9) (derivedOps.drop 10) _ t rfl
          (by decide) (by decide) (by decide)).1 (by intro s hs; simp [opSources] at hs),
        fun i hi => getCell_derive_const (derivedOps.take 9) (derivedOps.drop 10)
          _ _ t rfl (by decide) hwf i hi⟩
    · exact ⟨(derive_adds_iff (derivedOps.take 10) (derivedOps.drop 11) _ t rfl
          (by decide) (by decide) (by decide)).1 (by intro s hs; simp [opSources] at hs),
        fun i hi => getCell_derive_const (derivedOps.take 10) (derivedOps.drop 11)
          _ _ t rfl (by decide) hwf i hi⟩
    · exact ⟨(derive_adds_iff (derivedOps.take 11) (derivedOps.drop 12) _ t rfl
          (by decide) (by decide) (by decide)).1 (by intro s hs; simp [opSources] at hs),
        fun i hi => getCell_derive_const (derivedOps.take 11) (derivedOps.drop 12)
          _ _ t rfl (by decide) hwf i hi⟩
    · exact ⟨(derive_adds_iff (derivedOps.take 12) (derivedOps.drop 13) _ t rfl
          (by decide) (by decide) (by decide)).1 (by intro s hs; simp [opSources] at hs),
        fun i hi => getCell_derive_const (derivedOps.take 12) (derivedOps.drop 13)
          _ _ t rfl (by decide) hwf i hi⟩

/-- The table used to witness C7: Goals/xG present (so xG_Overperformance is
added), Sh absent (so Shooting_Conversion_Rate is skipped). -/
def c7Witness : Table :=
  ⟨["Goals", "xG"], [[("Goals", Value.num ⟨3, 1⟩), ("xG", Value.num ⟨5, 2⟩)]]⟩

/-- Witness for C7 at a concrete table. -/
theorem derive_schema_witness :
    WF c7Witness ∧
    "Top_Speed" ∈ (calculate_derived_metrics c7Witness).cols ∧
    getCell (calculate_derived_metrics c7Witness) "Top_Speed" 0 = Value.str "N/A" ∧
    ¬ ("Shooting_Conversion_Rate" ∈ (calculate_derived_metrics c7Witness).cols) := by
  refine ⟨by decide, ?_, ?_, ?_⟩
  · exact ((derive_schema c7Witness (by decide)).2 "Top_Speed" (by decide)).1
  · exact ((derive_schema c7Witness (by decide)).2 "Top_Speed" (by decide)).2 0 (by decide)
  · intro hmem
    have h := ((derive_schema c7Witness (by decide)).1
      (MetricOp.rate "Shooting_Conversion_Rate" "Goals" "Sh") (by decide)).2
      (by decide)
    have h2 : "Shooting_Conversion_Rate" ∈ c7Witness.cols :=
      (show (opName (MetricOp.rate "Shooting_Conversion_Rate" "Goals" "Sh")) ∈
        (calculate_derived_metrics c7Witness).cols ↔ _ from h).mp hmem
    exact absurd h2 (by decide)

/-- C10: frame property of `calculate_derived_metrics`: the row count is
unchanged; every column whose name is none of the six derived-metric names nor
the seven placeholder names keeps its value in every row; and a pre-existing
column that collides with a placeholder name is overwritten with "N/A" in
every row. -/
theorem derive_frame (t : Table) (hwf : WF t) :
    (calculate_derived_metrics t).rows.length = t.rows.length ∧
    (∀ c, (∀ op ∈ derivedOps, c ≠ opName op) →
      ∀ i, getCell (calculate_derived_metrics t) c i = getCell t c i) ∧
    (∀ p ∈ placeholderNames, p ∈ t.cols →
      ∀ i, i < t.rows.length →
        getCell (calculate_derived_metrics t) p i = Value.str "N/A") := by
  refine ⟨foldl_applyOp_rows_length derivedOps t, ?_, ?_⟩
  · intro c hc i
    exact foldl_applyOp_getCell_ne derivedOps t c hc i
  · intro p hp _ i hi
    simp only [placeholderNames, List.mem_cons, List.not_mem_nil, or_false] at hp
    rcases hp with rfl | rfl | rfl | rfl | rfl | rfl | rfl
    · exact getCell_derive_const (derivedOps.take 6) (derivedOps.drop 7) _ _ t rfl
        (by decide) hwf i hi
    · exact getCell_derive_const (derivedOps.take 7) (derivedOps.drop 8) _ _ t rfl
        (by decide) hwf i hi
    · exact getCell_derive_const (derivedOps.take 8) (derivedOps.drop 9) _ _ t rfl
        (by decide) hwf i hi
    · exact getCell_derive_const (derivedOps.take 9) (derivedOps.drop 10) _ _ t rfl
        (by decide) hwf i hi
    · exact getCell_derive_const (derivedOps.take 10) (derivedOps.drop 11) _ _ t rfl
        (by decide) hwf i hi
    · exact getCell_derive_const (derivedOps.take 11) (derivedOps.drop 12) _ _ t rfl
        (by decide) hwf i hi
    · exact getCell_derive_const (derivedOps.take 12) (derivedOps.drop 13) _ _ t rfl
        (by decide) hwf i hi

/-- The table used to witness C10: carries an untouched column "Min" and a
pre-existing "Top_Speed" column that collides with a placeholder. -/
def c10Witness : Table :=
  ⟨["Min", "Top_Speed"],
   [[("Min", Value.num ⟨90, 1⟩), ("Top_Speed", Value.str "34.2")]]⟩

/-- Witness for C10 at a concrete table. -/
theorem derive_frame_witness :
    WF c10Witness ∧
    (calculate_derived_metrics c10Witness).rows.length = 1 ∧
    getCell (calculate_derived_metrics c10Witness) "Min" 0 = Value.num ⟨90, 1⟩ ∧
    getCell (calculate_derived_metrics c10Witness) "Top_Speed" 0 = Value.str "N/A" := by
  refine ⟨by decide, ?_, ?_, ?_⟩
  · exact (derive_frame c10Witness (by decide)).1
  · exact ((derive_frame c10Witness (by decide)).2.1 "Min" (by decide) 0)
  · exact ((derive_frame c10Witness (by decide)).2.2 "Top_Speed" (by decide)
      (by decide) 0 (by decide))

/-! ### Idempotence of the derived-metrics pass -/

/-- The column a `try`-wrapped apply produces: per-row results when no row
raises, the constant fallback otherwise. -/
def tryColumn (u : Table) (cell : Row → Except PyErr String) (fb : String) : List Value :=
  match mapEx cell u.rows with
  | Except.ok ss => ss.map Value.str
  | Except.error _ => List.replicate u.rows.length (Value.str fb)

theorem tryColumn_length (u : Table) (cell : Row → Except PyErr String) (fb : String) :
    (tryColumn u cell fb).length = u.rows.length := by
  unfold tryColumn
  cases hm : mapEx cell u.rows with
  | ok ss => rw [List.length_map]; exact mapEx_ok_length hm
  | error e => exact List.length_replicate _ _

theorem tryMetric_eq_tryColumn (t : Table) (n : String) (cell : Row → Except PyErr String)
    (caught : List PyErr) (fb : String)
    (hcaught : ∀ r ∈ t.rows, ∀ e, cell r = Except.error e → e ∈ caught) :
    tryMetric t n cell caught fb = setColVals t n (tryColumn t cell fb) := by
  unfold tryMetric tryColumn
  cases hm : mapEx cell t.rows with
  | ok ss => rfl
  | error e =>
    obtain ⟨r, hr, hfr⟩ := mapEx_error_mem hm
    simp [hcaught r hr e hfr]

theorem zipWith_replacePair_self (c : String) :
    ∀ (rs : List Row) (vs : List Value), vs.length = rs.length →
      (∀ j, j < rs.length → lookupV (rs.getD j []) c = vs.getD j Value.na) →
      List.zipWith (fun r v => replacePair r c v) rs vs = rs := by
  intro rs
  induction rs with
  | nil => intro vs _ _; simp
  | cons r rs ih =>
    intro vs hlen hvals
    cases vs with
    | nil => simp at hlen
    | cons v vs2 =>
      rw [List.zipWith_cons_cons]
      have h0 : lookupV r c = v := by simpa using hvals 0 (by simp)
      have hrep : replacePair r c v = r := by rw [← h0]; exact replacePair_lookup r c
      rw [hrep, ih vs2 (by simpa using hlen)
        (fun j hj => by simpa using hvals (j + 1) (by simp only [List.length_cons]; omega))]

theorem setColVals_self_eq (t : Table) (c : String) (vs : List Value)
    (hc : c ∈ t.cols) (hlen : vs.length = t.rows.length)
    (hvals : ∀ j, j < t.rows.length → getCell t c j = vs.getD j Value.na) :
    setColVals t c vs = t := by
  unfold setColVals
  rw [if_pos hc]
  cases t with
  | mk cols rows =>
    simp only [Table.mk.injEq, true_and]
    exact zipWith_replacePair_self c rows vs hlen hvals

theorem foldl_applyOp_fix (l : List MetricOp) (S : Table)
    (h : ∀ op ∈ l, applyOp S op = S) : l.foldl applyOp S = S := by
  induction l with
  | nil => rfl
  | cons op l ih =>
    rw [List.foldl_cons, h op (List.mem_cons_self _ _)]
    exact ih (fun o ho => h o (List.mem_cons_of_mem _ ho))

/-- A guarded metric statement is a fixed point of the table it already
processed: re-running it recomputes the same column from the unchanged source
cells and rewrites it in place with identical values. -/
theorem applyOp_fix_guarded (pre post : List MetricOp) (op : MetricOp) (n a b : String)
    (mkCell : Value → Value → Except PyErr String) (caught : List PyErr) (fb : String)
    (t : Table) (hwf : WF t)
    (hop_eq : ∀ u : Table, applyOp u op =
      if a ∈ u.cols ∧ b ∈ u.cols then
        tryMetric u n (fun r => mkCell (lookupV r a) (lookupV r b)) caught fb
      else u)
    (hcaught : ∀ x y e, mkCell x y = Except.error e → e ∈ caught)
    (hsplit : derivedOps = pre ++ op :: post)
    (hpostn : ∀ o ∈ post, n ≠ opName o)
    (hna : ∀ o ∈ derivedOps, a ≠ opName o)
    (hnb : ∀ o ∈ derivedOps, b ≠ opName o) :
    applyOp (calculate_derived_metrics t) op = calculate_derived_metrics t := by
  have hpre_a : ∀ o ∈ pre, a ≠ opName o :=
    fun o ho => hna o (hsplit ▸ List.mem_append_left _ ho)
  have hpre_b : ∀ o ∈ pre, b ≠ opName o :=
    fun o ho => hnb o (hsplit ▸ List.mem_append_left _ ho)
  have hSa_mem : a ∈ (calculate_derived_metrics t).cols ↔ a ∈ t.cols :=
    foldl_applyOp_mem_cols_ne derivedOps t a hna
  have hSb_mem : b ∈ (calculate_derived_metrics t).cols ↔ b ∈ t.cols :=
    foldl_applyOp_mem_cols_ne derivedOps t b hnb
  have hSa : ∀ j, getCell (calculate_derived_metrics t) a j = getCell t a j :=
    foldl_applyOp_getCell_ne derivedOps t a hna
  have hSb : ∀ j, getCell (calculate_derived_metrics t) b j = getCell t b j :=
    foldl_applyOp_getCell_ne derivedOps t b hnb
  by_cases hg : a ∈ t.cols ∧ b ∈ t.cols
  · have hua : a ∈ (pre.foldl applyOp t).cols := foldl_applyOp_mem_cols_mono pre t a hg.1
    have hub : b ∈ (pre.foldl applyOp t).cols := foldl_applyOp_mem_cols_mono pre t b hg.2
    have hwfu : WF (pre.foldl applyOp t) := foldl_applyOp_WF pre t hwf
    have huca : ∀ j, getCell (pre.foldl applyOp t) a j = getCell t a j :=
      foldl_applyOp_getCell_ne pre t a hpre_a
    have hucb : ∀ j, getCell (pre.foldl applyOp t) b j = getCell t b j :=
      foldl_applyOp_getCell_ne pre t b hpre_b
    have hstep : applyOp (pre.foldl applyOp t) op =
        setColVals (pre.foldl applyOp t) n
          (tryColumn (pre.foldl applyOp t) (fun r => mkCell (lookupV r a) (lookupV r b)) fb) := by
      rw [hop_eq, if_pos ⟨hua, hub⟩,
        tryMetric_eq_tryColumn _ _ _ _ _ (fun r _ e he => hcaught _ _ e he)]
    have hmain : calculate_derived_metrics t =
        post.foldl applyOp (applyOp (pre.foldl applyOp t) op) := by
      rw [calculate_derived_metrics, hsplit, List.foldl_append, List.foldl_cons]
    have hcollen : (tryColumn (pre.foldl applyOp t)
        (fun r => mkCell (lookupV r a) (lookupV r b)) fb).length =
        (pre.foldl applyOp t).rows.length := tryColumn_length _ _ _
    have hulen : (pre.foldl applyOp t).rows.length = t.rows.length :=
      foldl_applyOp_rows_length pre t
    have hSlen : (calculate_derived_metrics t).rows.length = t.rows.length :=
      foldl_applyOp_rows_length derivedOps t
    have hScol : ∀ j, j < t.rows.length →
        getCell (calculate_derived_metrics t) n j =
        (tryColumn (pre.foldl applyOp t)
          (fun r => mkCell (lookupV r a) (lookupV r b)) fb).getD j Value.na := by
      intro j hj
      rw [hmain, hstep, foldl_applyOp_getCell_ne post _ n hpostn j,
        getCell_setColVals_self _ _ _ hwfu (by omega) j (by omega)]
    have hwfS : WF (calculate_derived_metrics t) := foldl_applyOp_WF derivedOps t hwf
    have hnS : n ∈ (calculate_derived_metrics t).cols := by
      rw [hmain, hstep]
      refine foldl_applyOp_mem_cols_mono post _ n ?_
      rw [mem_cols_setColVals]
      exact Or.inr rfl
    have hmap : mapEx (fun r => mkCell (lookupV r a) (lookupV r b))
        (calculate_derived_metrics t).rows =
        mapEx (fun r => mkCell (lookupV r a) (lookupV r b)) (pre.foldl applyOp t).rows := by
      refine mapEx_congr [] (by rw [hSlen, hulen]) ?_
      intro j hj
      show mkCell (lookupV ((calculate_derived_metrics t).rows.getD j []) a)
          (lookupV ((calculate_derived_metrics t).rows.getD j []) b) =
        mkCell (lookupV ((pre.foldl applyOp t).rows.getD j []) a)
          (lookupV ((pre.foldl applyOp t).rows.getD j []) b)
      rw [lookupV_getD_eq_getCell, lookupV_getD_eq_getCell, lookupV_getD_eq_getCell,
        lookupV_getD_eq_getCell, hSa, hSb, huca, hucb]
    have htryCol2 : tryColumn (calculate_derived_metrics t)
        (fun r => mkCell (lookupV r a) (lookupV r b)) fb =
        tryColumn (pre.foldl applyOp t)
          (fun r => mkCell (lookupV r a) (lookupV r b)) fb := by
      unfold tryColumn
      rw [hmap, hSlen, hulen]
    rw [hop_eq, if_pos ⟨hSa_mem.mpr hg.1, hSb_mem.mpr hg.2⟩,
      tryMetric_eq_tryColumn _ _ _ _ _ (fun r _ e he => hcaught _ _ e he), htryCol2]
    exact setColVals_self_eq _ n _ hnS (by omega) (fun j hj => hScol j (by omega))
  · rw [hop_eq]
    exact if_neg (fun hSg => hg ⟨hSa_mem.mp hSg.1, hSb_mem.mp hSg.2⟩)

/-- A placeholder assignment is a fixed point of the table it already
processed. -/
theorem applyOp_fix_const (pre post : List MetricOp) (n v : String) (t : Table)
    (hwf : WF t) (hsplit : derivedOps = pre ++ MetricOp.const n v :: post)
    (hpostn : ∀ o ∈ post, n ≠ opName o) :
    applyOp (calculate_derived_metrics t) (MetricOp.const n v) =
      calculate_derived_metrics t := by
  have hSlen : (calculate_derived_metrics t).rows.length = t.rows.length :=
    foldl_applyOp_rows_length derivedOps t
  have hmain : calculate_derived_metrics t =
      post.foldl applyOp (applyOp (pre.foldl applyOp t) (MetricOp.const n v)) := by
    rw [calculate_derived_metrics, hsplit, List.foldl_append, List.foldl_cons]
  have hnS : n ∈ (calculate_derived_metrics t).cols := by
    rw [hmain]
    refine foldl_applyOp_mem_cols_mono post _ n ?_
    show n ∈ (setColVals _ n _).cols
    rw [mem_cols_setColVals]
    exact Or.inr rfl
  have hvals : ∀ j, j < (calculate_derived_metrics t).rows.length →
      getCell (calculate_derived_metrics t) n j =
      (List.replicate (calculate_derived_metrics t).rows.length
        (Value.str v)).getD j Value.na := by
    intro j hj
    rw [getD_replicate_lt _ _ _ hj]
    exact getCell_derive_const pre post n v t hsplit hpostn hwf j (by omega)
  show setColVals _ n _ = _
  exact setColVals_self_eq _ n _ hnS (List.length_replicate _ _) hvals

/-- C8: `calculate_derived_metrics` is idempotent on well-formed tables:
the second pass recomputes every guarded metric from the same (unchanged)
source columns and overwrites each derived and placeholder column in place
with identical values. -/
theorem derive_idempotent (t : Table) (hwf : WF t) :
    calculate_derived_metrics (calculate_derived_metrics t) =
      calculate_derived_metrics t := by
  show derivedOps.foldl applyOp (calculate_derived_metrics t) = calculate_derived_metrics t
  apply foldl_applyOp_fix
  intro op hop
  simp only [derivedOps, List.mem_cons, List.not_mem_nil, or_false] at hop
  rcases hop with rfl | rfl | rfl | rfl | rfl | rfl | rfl | rfl | rfl | rfl | rfl | rfl | rfl
  · exact applyOp_fix_guarded (derivedOps.take 0) (derivedOps.drop 1) _ _ "Goals" "Sh"
      rateCell caughtRate "0.00%" t hwf (fun u => rfl)
      (fun x y e he => rateCell_error_caught he) rfl (by decide) (by decide) (by decide)
  · exact applyOp_fix_guarded (derivedOps.take 1) (derivedOps.drop 2) _ _ "Cmp" "Att"
      rateCell caughtRate "0.00%" t hwf (fun u => rfl)
      (fun x y e he => rateCell_error_caught he) rfl (by decide) (by decide) (by decide)
  · exact applyOp_fix_guarded (derivedOps.take 2) (derivedOps.drop 3) _ _ "Goals" "xG"
      diffCell caughtDiff "N/A" t hwf (fun u => rfl)
      (fun x y e he => diffCell_error_caught he) rfl (by decide) (by decide) (by decide)
  · exact applyOp_fix_guarded (derivedOps.take 3) (derivedOps.drop 4) _ _ "Assists" "xA"
      diffCell caughtDiff "N/A" t hwf (fun u => rfl)
      (fun x y e he => diffCell_error_caught he) rfl (by decide) (by decide) (by decide)
  · exact applyOp_fix_guarded (derivedOps.take 4) (derivedOps.drop 5) _ _
      "Dribbles Succ" "Dribbles Att" rateCell caughtRate "0.00%" t hwf (fun u => rfl)
      (fun x y e he => rateCell_error_caught he) rfl (by decide) (by decide) (by decide)
  · exact applyOp_fix_guarded (derivedOps.take 5) (derivedOps.drop 6) _ _
      "Aerial Duels Won" "Aerial Duels Lost" aerialCell caughtRate "0.00%" t hwf
      (fun u => rfl)
      (fun x y e he => aerialCell_error_caught he) rfl (by decide) (by decide) (by decide)
  · exact applyOp_fix_const (derivedOps.take 6) (derivedOps.drop 7) _ _ t hwf rfl (by decide)
  · exact applyOp_fix_const (derivedOps.take 7) (derivedOps.drop 8) _ _ t hwf rfl (by decide)
  · exact applyOp_fix_const (derivedOps.take 8) (derivedOps.drop 9) _ _ t hwf rfl (by decide)
  · exact applyOp_fix_const (derivedOps.take 9) (derivedOps.drop 10) _ _ t hwf rfl (by decide)
  · exact applyOp_fix_const (derivedOps.take 10) (derivedOps.drop 11) _ _ t hwf rfl (by decide)
  · exact applyOp_fix_const (derivedOps.take 11) (derivedOps.drop 12) _ _ t hwf rfl (by decide)
  · exact applyOp_fix_const (derivedOps.take 12) (derivedOps.drop 13) _ _ t hwf rfl (by decide)

/-- The table used to witness C8: one clean row and one row with a
non-numeric denominator, so both the per-row and the fallback branches are
exercised. -/
def c8Witness : Table :=
  ⟨["Goals", "Sh", "xG"],
   [[("Goals", Value.num ⟨2, 1⟩), ("Sh", Value.num ⟨5, 1⟩), ("xG", Value.num ⟨3, 2⟩)],
    [("Goals", Value.num ⟨1, 1⟩), ("Sh", Value.str "oops"), ("xG", Value.na)]]⟩

/-- Witness for C8 at a concrete table. -/
theorem derive_idempotent_witness :
    WF c8Witness ∧
    calculate_derived_metrics (calculate_derived_metrics c8Witness) =
      calculate_derived_metrics c8Witness :=
  ⟨by decide, derive_idempotent c8Witness (by decide)⟩

/-! ### Merger failure condition (C1) and the WhoScored guard (C9) -/

/-- C1 (amended): `merge_data_sources` returns None exactly when the FBref
dict lacks a "standard" table — the other two sources play no part in the
failure decision. -/
theorem merge_fails_iff_no_standard (fbref : List (String × Table))
    (ws : Option (List (String × RawTab))) (us : Option Table) :
    merge_data_sources fbref ws us = none ↔ lookupTable fbref "standard" = none := by
  cases h : lookupTable fbref "standard" with
  | none => simp [merge_data_sources, h]
  | some base => simp [merge_data_sources, h]

/-- Understat frame for the C1 counterexample: one player row, plainly
non-empty. -/
def c1Understat : Table :=
  ⟨["Player", "Team", "xG"],
   [[("Player", Value.str "P1"), ("Team", Value.str "ClubX"), ("xG", Value.str "8.5")]]⟩

/-- C1 counterexample: the FBref extract is empty but the Understat frame is
non-empty, so the claim demands a MergedTable; the code nevertheless fails
(returns None) because FBref's "standard" table is absent. -/
theorem merge_nonempty_input_fails :
    c1Understat.rows ≠ [] ∧
    merge_data_sources [] none (some c1Understat) = none :=
  ⟨by decide, rfl⟩

/-- FBref standard table for the C9 examples. -/
def c9Std : Table :=
  ⟨["Player", "Squad", "Goals"],
   [[("Player", Value.str "P1"), ("Squad", Value.str "ClubX"), ("Goals", Value.str "10")]]⟩

/-- A WhoScored Summary tab that lacks a "Player" header and whose rows match
the header count, so `pd.DataFrame` succeeds and the header guard rejects
it. -/
def c9Ws : List (String × RawTab) := [("Summary", ⟨["Name", "Team"], [["x", "y"]]⟩)]

/-- Understat frame for the C9 examples. -/
def c9Us : Table :=
  ⟨["Player", "Team", "xG"],
   [[("Player", Value.str "P1"), ("Team", Value.str "ClubX"), ("xG", Value.str "8.5")]]⟩

/-- A WhoScored Summary tab that lacks a "Player" header (so the claim says it
is silently dropped) but whose single data row is one cell wider than the
header list (so `pd.DataFrame` raises before the header guard runs). -/
def c9BadTab : RawTab := ⟨["Name", "Team"], [["x", "y", "z"]]⟩

/-- WhoScored extract wrapping `c9BadTab` under "Summary". -/
def c9BadWs : List (String × RawTab) := [("Summary", c9BadTab)]

/-- C9 counterexample: a present "Summary" tab whose headers lack "Player" —
a case in which the claim promises the WhoScored contribution is silently
omitted without failing — but whose data row is wider than its header list.
`pd.DataFrame(rows, columns=headers)` (scraper.py line 227) runs before the
Player/Team header guard (line 230) and raises `ValueError`, which propagates
out of `merge_data_sources`; the same merge with the WhoScored source absent
succeeds and returns a MergedTable, so the run fails instead of equalling
it. -/
theorem whoscored_width_mismatch_raises :
    lookupTab c9BadWs "Summary" = some c9BadTab ∧
    "Player" ∉ c9BadTab.headers ∧
    merge_data_sources_ex [("standard", c9Std)] (some c9BadWs) (some c9Us) =
      Except.error PyErr.valueError ∧
    merge_data_sources_ex [("standard", c9Std)] none (some c9Us) =
      Except.ok (merge_data_sources [("standard", c9Std)] none (some c9Us)) ∧
    (merge_data_sources [("standard", c9Std)] none (some c9Us)).isSome = true :=
  ⟨by decide, by decide, rfl, rfl, rfl⟩

/-- C9 (amended): whenever the WhoScored extract is None, lacks a "Summary"
tab, or has a Summary tab whose data width matches its header count (so
`pd.DataFrame` succeeds) but whose headers do not include both "Player" and
"Team", `merge_data_sources` raises nothing and silently behaves exactly as
if the WhoScored source were absent: the result is the FBref-plus-Understat
merge.  Without the width condition a present Summary tab can instead raise
`ValueError` (scraper.py line 227 runs before the guard of line 230). -/
theorem whoscored_guard_omits_contribution (fbref : List (String × Table))
    (ws : Option (List (String × RawTab))) (us : Option Table)
    (h : ws = none ∨ (∃ d, ws = some d ∧ lookupTab d "Summary" = none) ∨
      (∃ d td, ws = some d ∧ lookupTab d "Summary" = some td ∧
        rawWidthMismatch td = false ∧
        ¬ ("Player" ∈ td.headers ∧ "Team" ∈ td.headers))) :
    merge_data_sources_ex fbref ws us =
      Except.ok (merge_data_sources fbref none us) := by
  have hmw : ∀ m : Table, mergeWhoscoredEx m ws = Except.ok m := by
    intro m
    rcases h with rfl | ⟨d, rfl, hs⟩ | ⟨d, td, rfl, hs, hwm, hng⟩
    · rfl
    · unfold mergeWhoscoredEx
      simp [hs]
    · unfold mergeWhoscoredEx
      have hb : ((some d).bind fun d2 => lookupTab d2 "Summary") = some td := by
        simp [hs]
      simp only [hb]
      have hbuild : buildWhoscoredFrame td = Except.ok (rawToTable td) := by
        unfold buildWhoscoredFrame
        rw [hwm]
        rfl
      rw [hbuild]
      dsimp only
      rw [if_neg]
      exact fun hc => hng ⟨hc.1, hc.2⟩
  cases hstd : lookupTable fbref "standard" with
  | none => simp [merge_data_sources_ex, merge_data_sources, hstd]
  | some base =>
    simp only [merge_data_sources_ex, merge_data_sources, hstd]
    rw [hmw]
    rfl

/-- Witness for C9 at concrete inputs: a width-correct Summary tab without a
"Player" header is silently dropped and no error is raised. -/
theorem whoscored_guard_omits_contribution_witness :
    (∃ d td, some c9Ws = some d ∧ lookupTab d "Summary" = some td ∧
      rawWidthMismatch td = false ∧
      ¬ ("Player" ∈ td.headers ∧ "Team" ∈ td.headers)) ∧
    merge_data_sources_ex [("standard", c9Std)] (some c9Ws) (some c9Us) =
      Except.ok (merge_data_sources [("standard", c9Std)] none (some c9Us)) := by
  refine ⟨⟨c9Ws, ⟨["Name", "Team"], [["x", "y"]]⟩, rfl, by decide, by decide, by decide⟩, ?_⟩
  exact whoscored_guard_omits_contribution _ _ _
    (Or.inr (Or.inr ⟨c9Ws, ⟨["Name", "Team"], [["x", "y"]]⟩, rfl, by decide, by decide,
      by decide⟩))

/-! ### Normalizer failure values (C6) -/

/-- C6 counterexample: on an absent raw extract (WhoScored page-load timeout,
Understat players table not found) the two normalizers return None — a
non-Table sentinel — not an empty zero-row Table as the claim states. -/
theorem normalizers_return_none :
    scrape_whoscored_stats none = none ∧ scrape_understat_stats none = none :=
  ⟨rfl, rfl⟩

/-- C6 (amended): on absent raw input the WhoScored and Understat normalizers
return None rather than an empty Table, and `merge_data_sources` accepts the
None contributions as valid absent input — it still produces a merged table
whenever the FBref "standard" table exists. -/
theorem normalizers_none_merge_ok (fbref : List (String × Table)) (base : Table)
    (hb : lookupTable fbref "standard" = some base) :
    scrape_whoscored_stats none = none ∧
    scrape_understat_stats none = none ∧
    ∃ m, merge_data_sources fbref (scrape_whoscored_stats none)
      (scrape_understat_stats none) = some m := by
  refine ⟨rfl, rfl, ?_⟩
  show ∃ m, merge_data_sources fbref none none = some m
  simp only [merge_data_sources, hb]
  exact ⟨_, rfl⟩

/-- FBref standard table for the C6 witness. -/
def c6Std : Table :=
  ⟨["Player", "Squad", "Goals"],
   [[("Player", Value.str "P1"), ("Squad", Value.str "ClubX"), ("Goals", Value.str "4")]]⟩

/-- Witness for C6's amended theorem at a concrete input. -/
theorem normalizers_none_merge_ok_witness :
    lookupTable [("standard", c6Std)] "standard" = some c6Std ∧
    ∃ m, merge_data_sources [("standard", c6Std)] (scrape_whoscored_stats none)
      (scrape_understat_stats none) = some m :=
  ⟨rfl, (normalizers_none_merge_ok [("standard", c6Std)] c6Std rfl).2.2⟩

/-! ### Key-set lemmas for the outer merge (C2, C3) -/

theorem lookupV_map_key (f : String → Value) (cols : List String) (c : String)
    (h : c ∈ cols) : lookupV (cols.map (fun d => (d, f d))) c = f c := by
  induction cols with
  | nil => simp at h
  | cons d rest ih =>
    by_cases hd : d = c
    · subst hd
      simp [List.map_cons, lookupV_cons]
    · rcases List.mem_cons.mp h with rfl | h2
      · exact absurd rfl hd
      · simp only [List.map_cons, lookupV_cons]
        rw [if_neg hd]
        exact ih h2

theorem keys_map_key (f : String → Value) (cols : List String) :
    (cols.map (fun d => (d, f d))).map Prod.fst = cols := by
  induction cols with
  | nil => rfl
  | cons d rest ih => simp only [List.map_cons, ih]

theorem rowKeyOf_append_of_mem {lr : Row} (ext : Row)
    (hP : "Player" ∈ lr.map Prod.fst) (hS : "Squad" ∈ lr.map Prod.fst) :
    rowKeyOf (lr ++ ext) = rowKeyOf lr := by
  unfold rowKeyOf
  rw [lookupV_append_left hP, lookupV_append_left hS]

theorem rowKeyOf_right_shape (rr : Row) (lcols extras : List String)
    (hP : "Player" ∈ lcols) (hS : "Squad" ∈ lcols) :
    rowKeyOf (lcols.map (fun c => (c, if c = "Player" ∨ c = "Squad" then lookupV rr c
        else Value.na)) ++ extras.map (fun c => (c, lookupV rr c))) = rowKeyOf rr := by
  unfold rowKeyOf
  have hkeys1 : "Player" ∈ (lcols.map (fun c => (c, if c = "Player" ∨ c = "Squad" then
      lookupV rr c else Value.na))).map Prod.fst := by
    rw [keys_map_key]; exact hP
  have hkeys2 : "Squad" ∈ (lcols.map (fun c => (c, if c = "Player" ∨ c = "Squad" then
      lookupV rr c else Value.na))).map Prod.fst := by
    rw [keys_map_key]; exact hS
  rw [lookupV_append_left hkeys1, lookupV_append_left hkeys2,
    lookupV_map_key _ _ _ hP, lookupV_map_key _ _ _ hS,
    if_pos (Or.inl rfl), if_pos (Or.inr rfl)]

theorem filter_eq_len_le_one {f : α → β} [DecidableEq β] {l : List α}
    (h : (l.map f).Nodup) (x : β) :
    (l.filter (fun y => f y = x)).length ≤ 1 := by
  induction l with
  | nil => simp
  | cons a l ih =>
    rw [List.map_cons, List.nodup_cons] at h
    by_cases ha : f a = x
    · rw [List.filter_cons_of_pos (by simp [ha])]
      have hnil : l.filter (fun y => f y = x) = [] := by
        rw [List.filter_eq_nil_iff]
        intro y hy hp
        simp only [decide_eq_true_eq] at hp
        exact h.1 (List.mem_map.mpr ⟨y, hy, by rw [hp, ha]⟩)
      rw [hnil]
      simp
    · rw [List.filter_cons_of_neg (by simp [ha])]
      exact ih h.2

theorem keys_mergedLeftRows (rrows : List Row) (extras : List String)
    (hr : (rrows.map rowKeyOf).Nodup) :
    ∀ (lrows : List Row),
      (∀ lr ∈ lrows, "Player" ∈ lr.map Prod.fst ∧ "Squad" ∈ lr.map Prod.fst) →
      (mergedLeftRows lrows rrows extras).map rowKeyOf = lrows.map rowKeyOf := by
  intro lrows
  induction lrows with
  | nil => intro _; rfl
  | cons lr rest ih =>
    intro hkeys
    have hlr := hkeys lr (List.mem_cons_self _ _)
    have hrest : (List.map rowKeyOf (rest.flatMap fun lr2 =>
        match rrows.filter (fun rr => rowKeyOf rr = rowKeyOf lr2) with
        | [] => [lr2 ++ extras.map (fun c => (c, Value.na))]
        | ms => ms.map (fun rr => lr2 ++ extras.map (fun c => (c, lookupV rr c))))) =
        rest.map rowKeyOf := ih (fun x hx => hkeys x (List.mem_cons_of_mem _ hx))
    show ((lr :: rest).flatMap _).map rowKeyOf = _
    rw [List.flatMap_cons, List.map_append]
    have hblock : ((match rrows.filter (fun rr => rowKeyOf rr = rowKeyOf lr) with
        | [] => [lr ++ extras.map (fun c => (c, Value.na))]
        | ms => ms.map (fun rr => lr ++ extras.map (fun c => (c, lookupV rr c)))) :
          List Row).map rowKeyOf = [rowKeyOf lr] := by
      cases hm : rrows.filter (fun rr => rowKeyOf rr = rowKeyOf lr) with
      | nil =>
        simp only [List.map_cons, List.map_nil]
        rw [rowKeyOf_append_of_mem _ hlr.1 hlr.2]
      | cons rr ms2 =>
        cases ms2 with
        | nil =>
          simp only [List.map_cons, List.map_nil]
          rw [rowKeyOf_append_of_mem _ hlr.1 hlr.2]
        | cons rr2 ms3 =>
          have hle := filter_eq_len_le_one hr (rowKeyOf lr)
          rw [hm] at hle
          simp at hle
    rw [hblock, hrest, List.map_cons]
    rfl

theorem map_filter_comp {f : α → β} {q : α → Bool} {p : β → Bool} (l : List α)
    (hpt : ∀ x, q x = p (f x)) :
    (l.filter q).map f = (l.map f).filter p := by
  induction l with
  | nil => rfl
  | cons a l ih =>
    rw [List.filter_cons, List.map_cons, List.filter_cons, hpt a]
    by_cases hp : p (f a)
    · simp [hp, ih]
    · simp [hp, ih]

theorem any_key_iff (lrows : List Row) (k : Value × Value) :
    (lrows.any (fun lr => rowKeyOf lr = k)) = true ↔ k ∈ lrows.map rowKeyOf := by
  simp only [List.any_eq_true, decide_eq_true_eq, List.mem_map]

theorem keys_mergedRightRows (lrows rrows : List Row) (lcols extras : List String)
    (hP : "Player" ∈ lcols) (hS : "Squad" ∈ lcols) :
    (mergedRightRows lrows rrows lcols extras).map rowKeyOf =
      (rrows.map rowKeyOf).filter (fun k => k ∉ lrows.map rowKeyOf) := by
  unfold mergedRightRows
  rw [List.map_map]
  refine Eq.trans (List.map_congr_left (fun rr _ => ?_)) (map_filter_comp rrows (fun rr => ?_))
  · exact rowKeyOf_right_shape rr lcols extras hP hS
  · exact decide_eq_decide.mpr (not_congr (any_key_iff lrows (rowKeyOf rr)))

theorem keysOf_pd_merge (l r : Table) (hwl : WF l)
    (hP : "Player" ∈ l.cols) (hS : "Squad" ∈ l.cols) (hur : (keysOf r).Nodup) :
    keysOf (pd_merge l r) = keysOf l ++ (keysOf r).filter (fun k => k ∉ keysOf l) := by
  unfold keysOf pd_merge
  simp only
  rw [List.map_append]
  rw [keys_mergedLeftRows r.rows _ hur l.rows
    (fun lr hlr => ⟨(hwl lr hlr) ▸ hP, (hwl lr hlr) ▸ hS⟩)]
  rw [keys_mergedRightRows l.rows r.rows l.cols _ hP hS]

theorem WF_pd_merge (l r : Table) (hwl : WF l) : WF (pd_merge l r) := by
  unfold WF pd_merge
  simp only
  intro row hrow
  rcases List.mem_append.mp hrow with hleft | hright
  · unfold mergedLeftRows at hleft
    obtain ⟨lr, hlr, hin⟩ := List.mem_flatMap.mp hleft
    have hkeys := hwl lr hlr
    cases hm : r.rows.filter (fun rr => rowKeyOf rr = rowKeyOf lr) with
    | nil =>
      rw [hm] at hin
      rcases List.mem_cons.mp hin with rfl | h2
      · rw [List.map_append, hkeys, keys_map_key]
      · simp at h2
    | cons rr ms2 =>
      rw [hm] at hin
      obtain ⟨rr2, _, rfl⟩ := List.mem_map.mp hin
      rw [List.map_append, hkeys, keys_map_key]
  · unfold mergedRightRows at hright
    obtain ⟨rr, _, rfl⟩ := List.mem_map.mp hright
    rw [List.map_append, keys_map_key, keys_map_key]

theorem mem_cols_pd_merge (l r : Table) (c : String) :
    c ∈ (pd_merge l r).cols ↔
      c ∈ l.cols ∨ (c ∈ r.cols ∧ c ≠ "Player" ∧ c ≠ "Squad") := by
  unfold pd_merge
  simp only [List.mem_append, List.mem_filter]
  constructor
  · rintro (h | h)
    · exact Or.inl h
    · refine Or.inr ⟨h.1, ?_⟩
      have := h.2
      simp only [decide_eq_true_eq] at this
      exact this
  · rintro (h | ⟨h1, h2⟩)
    · exact Or.inl h
    · exact Or.inr ⟨h1, by simp only [decide_eq_true_eq]; exact h2⟩

/-! ### dropCols / dropCommonCols lemmas -/

theorem lookupV_filter_not_mem (ns : List String) (c : String) (h : c ∉ ns) :
    ∀ r : Row, lookupV (r.filter (fun p => p.1 ∉ ns)) c = lookupV r c := by
  intro r
  induction r with
  | nil => rfl
  | cons p ps ih =>
    by_cases hp : p.1 ∈ ns
    · rw [List.filter_cons_of_neg (by simp [hp]), ih, lookupV_cons,
        if_neg (fun hc : p.1 = c => h (hc ▸ hp))]
    · rw [List.filter_cons_of_pos (by simp [hp]), lookupV_cons, lookupV_cons]
      by_cases hc : p.1 = c
      · rw [if_pos hc, if_pos hc]
      · rw [if_neg hc, if_neg hc, ih]

theorem rowKeyOf_filter (ns : List String) (hP : "Player" ∉ ns) (hS : "Squad" ∉ ns)
    (r : Row) : rowKeyOf (r.filter (fun p => p.1 ∉ ns)) = rowKeyOf r := by
  unfold rowKeyOf
  rw [lookupV_filter_not_mem ns _ hP, lookupV_filter_not_mem ns _ hS]

theorem player_not_mem_commonCols (acc t : Table) : "Player" ∉ commonCols acc t := by
  intro h
  exact (of_decide_eq_true ((List.mem_filter.mp h).2)).2.1 rfl

theorem squad_not_mem_commonCols (acc t : Table) : "Squad" ∉ commonCols acc t := by
  intro h
  exact (of_decide_eq_true ((List.mem_filter.mp h).2)).2.2 rfl

theorem keysOf_dropCommonCols (acc t : Table) :
    keysOf (dropCommonCols acc t) = keysOf t := by
  unfold keysOf dropCommonCols dropCols
  simp only
  rw [List.map_map]
  refine List.map_congr_left ?_
  intro r _
  exact rowKeyOf_filter _ (player_not_mem_commonCols acc t) (squad_not_mem_commonCols acc t) r

theorem mem_cols_dropCommonCols (acc t : Table) (c : String) :
    c ∈ (dropCommonCols acc t).cols ↔
      c ∈ t.cols ∧ ¬ (c ∈ acc.cols ∧ c ≠ "Player" ∧ c ≠ "Squad") := by
  unfold dropCommonCols dropCols commonCols
  simp only [List.mem_filter, decide_eq_true_eq]
  constructor
  · rintro ⟨h1, h2⟩
    exact ⟨h1, fun hc => h2 ⟨h1, hc⟩⟩
  · rintro ⟨h1, h2⟩
    exact ⟨h1, fun hc => h2 hc.2⟩

/-! ### Merge accumulator invariant (C2) -/

/-- Invariant of the merge accumulator: well-formed, carries the identity-key
columns, and has pairwise-distinct identity keys. -/
def MInv (t : Table) : Prop :=
  WF t ∧ "Player" ∈ t.cols ∧ "Squad" ∈ t.cols ∧ (keysOf t).Nodup

theorem mergeStep_keys (acc t : Table) (h : MInv acc) (ht : (keysOf t).Nodup) :
    keysOf (mergeStep acc t) =
      keysOf acc ++ (keysOf t).filter (fun k => k ∉ keysOf acc) := by
  unfold mergeStep
  rw [keysOf_pd_merge acc _ h.1 h.2.1 h.2.2.1
    (by rw [keysOf_dropCommonCols]; exact ht), keysOf_dropCommonCols]

theorem mergeStep_MInv (acc t : Table) (h : MInv acc) (ht : (keysOf t).Nodup) :
    MInv (mergeStep acc t) := by
  obtain ⟨hwf, hP, hS, hnd⟩ := h
  refine ⟨WF_pd_merge _ _ hwf, ?_, ?_, ?_⟩
  · rw [show mergeStep acc t = pd_merge acc (dropCommonCols acc t) from rfl,
      mem_cols_pd_merge]
    exact Or.inl hP
  · rw [show mergeStep acc t = pd_merge acc (dropCommonCols acc t) from rfl,
      mem_cols_pd_merge]
    exact Or.inl hS
  · rw [mergeStep_keys acc t ⟨hwf, hP, hS, hnd⟩ ht, List.nodup_append]
    refine ⟨hnd, List.Nodup.filter _ ht, ?_⟩
    intro a ha hafil
    exact (of_decide_eq_true (List.mem_filter.mp hafil).2) ha

theorem foldl_mergeStep (l : List (String × Table)) (acc : Table) (hacc : MInv acc)
    (hl : ∀ p ∈ l, (keysOf p.2).Nodup) :
    MInv (l.foldl (fun a p => mergeStep a p.2) acc) ∧
    ∀ k, k ∈ keysOf (l.foldl (fun a p => mergeStep a p.2) acc) ↔
      k ∈ keysOf acc ∨ ∃ p ∈ l, k ∈ keysOf p.2 := by
  induction l generalizing acc with
  | nil => exact ⟨hacc, fun k => by simp⟩
  | cons p rest ih =>
    have hp := hl p (List.mem_cons_self _ _)
    have hstep := mergeStep_MInv acc p.2 hacc hp
    obtain ⟨hinv, hkeys⟩ := ih (mergeStep acc p.2) hstep
      (fun q hq => hl q (List.mem_cons_of_mem _ hq))
    rw [List.foldl_cons]
    refine ⟨hinv, fun k => ?_⟩
    rw [hkeys k, mergeStep_keys acc p.2 hacc hp]
    constructor
    · rintro (h | ⟨q, hq, hkq⟩)
      · rcases List.mem_append.mp h with h2 | h2
        · exact Or.inl h2
        · exact Or.inr ⟨p, List.mem_cons_self _ _, (List.mem_filter.mp h2).1⟩
      · exact Or.inr ⟨q, List.mem_cons_of_mem _ hq, hkq⟩
    · rintro (h | ⟨q, hq, hkq⟩)
      · exact Or.inl (List.mem_append_left _ h)
      · rcases List.mem_cons.mp hq with rfl | hq2
        · by_cases hk : k ∈ keysOf acc
          · exact Or.inl (List.mem_append_left _ hk)
          · exact Or.inl (List.mem_append_right _
              (List.mem_filter.mpr ⟨hkq, decide_eq_true hk⟩))
        · exact Or.inr ⟨q, hq2, hkq⟩

theorem mergeWhoscored_MInv (m : Table) (ws : Option (List (String × RawTab)))
    (h : MInv m)
    (hws : ∀ d td, ws = some d → lookupTab d "Summary" = some td →
      (keysOf (renameTeamSquad (rawToTable td))).Nodup) :
    MInv (mergeWhoscored m ws) ∧
    (∀ k, k ∈ keysOf m → k ∈ keysOf (mergeWhoscored m ws)) ∧
    (∀ d td, ws = some d → lookupTab d "Summary" = some td →
      "Player" ∈ td.headers → "Team" ∈ td.headers →
      ∀ k, k ∈ keysOf (renameTeamSquad (rawToTable td)) →
        k ∈ keysOf (mergeWhoscored m ws)) := by
  unfold mergeWhoscored
  cases hbind : ws.bind (fun d => lookupTab d "Summary") with
  | none =>
    refine ⟨h, fun k hk => hk, ?_⟩
    intro d td hd htd
    rw [hd] at hbind
    rw [show ((some d).bind fun d2 => lookupTab d2 "Summary") = lookupTab d "Summary"
      from rfl, htd] at hbind
    cases hbind
  | some td0 =>
    obtain ⟨d0, hd0, htd0⟩ := Option.bind_eq_some.mp hbind
    have hnd0 : (keysOf (renameTeamSquad (rawToTable td0))).Nodup := hws d0 td0 hd0 htd0
    dsimp only
    by_cases hg : "Player" ∈ (rawToTable td0).cols ∧ "Team" ∈ (rawToTable td0).cols
    · rw [if_pos hg]
      refine ⟨mergeStep_MInv _ _ h hnd0, ?_, ?_⟩
      · intro k hk
        rw [mergeStep_keys _ _ h hnd0]
        exact List.mem_append_left _ hk
      · intro d td hd htd _ _ k hk
        have hdd : d = d0 := by rw [hd0] at hd; injection hd with h2; exact h2.symm
        subst hdd
        have htdtd : td = td0 := by rw [htd] at htd0; injection htd0
        subst htdtd
        rw [mergeStep_keys _ _ h hnd0]
        by_cases hkm : k ∈ keysOf m
        · exact List.mem_append_left _ hkm
        · exact List.mem_append_right _ (List.mem_filter.mpr ⟨hk, decide_eq_true hkm⟩)
    · rw [if_neg hg]
      refine ⟨h, fun k hk => hk, ?_⟩
      intro d td hd htd hPh hTh
      have hdd : d = d0 := by rw [hd0] at hd; injection hd with h2; exact h2.symm
      subst hdd
      have htdtd : td = td0 := by rw [htd] at htd0; injection htd0
      subst htdtd
      exact absurd ⟨hPh, hTh⟩ hg

theorem mergeUnderstat_MInv (m : Table) (us : Option Table) (h : MInv m)
    (hus : ∀ u, us = some u → (keysOf (renameTeamSquad u)).Nodup) :
    MInv (mergeUnderstat m us) ∧
    (∀ k, k ∈ keysOf m → k ∈ keysOf (mergeUnderstat m us)) ∧
    (∀ u, us = some u → u.cols ≠ [] →
      ∀ k, k ∈ keysOf (renameTeamSquad u) → k ∈ keysOf (mergeUnderstat m us)) := by
  unfold mergeUnderstat
  cases us with
  | none => exact ⟨h, fun k hk => hk, fun u hu => by cases hu⟩
  | some u =>
    have hnd : (keysOf (renameTeamSquad u)).Nodup := hus u rfl
    dsimp only
    by_cases hg : u.rows ≠ [] ∧ u.cols ≠ []
    · rw [if_pos hg]
      refine ⟨mergeStep_MInv _ _ h hnd, ?_, ?_⟩
      · intro k hk
        rw [mergeStep_keys _ _ h hnd]
        exact List.mem_append_left _ hk
      · intro u2 hu2 _ k hk
        have huu : u2 = u := by injection hu2 with h2; exact h2.symm
        subst huu
        rw [mergeStep_keys _ _ h hnd]
        by_cases hkm : k ∈ keysOf m
        · exact List.mem_append_left _ hkm
        · exact List.mem_append_right _ (List.mem_filter.mpr ⟨hk, decide_eq_true hkm⟩)
    · rw [if_neg hg]
      refine ⟨h, fun k hk => hk, ?_⟩
      intro u2 hu2 hcols k hk
      have huu : u2 = u := by injection hu2 with h2; exact h2.symm
      rw [huu] at hk hcols
      have hrows : u.rows = [] := by
        by_contra hr
        exact hg ⟨hr, hcols⟩
      unfold keysOf renameTeamSquad at hk
      rw [hrows] at hk
      simp at hk

theorem lookupTable_mem {l : List (String × Table)} {n : String} {tb : Table}
    (h : lookupTable l n = some tb) : ∃ p, p ∈ l ∧ p.1 = n ∧ p.2 = tb := by
  unfold lookupTable at h
  cases hf : l.find? (fun p => p.1 == n) with
  | none => rw [hf] at h; cases h
  | some q =>
    rw [hf] at h
    injection h with h2
    refine ⟨q, List.mem_of_find?_eq_some hf, ?_, h2⟩
    have hq := (List.find?_eq_some.mp hf).1
    exact eq_of_beq hq

theorem standard_entry_eq {fbref : List (String × Table)} {base : Table}
    (hnames : (fbref.map Prod.fst).Nodup)
    (hbase : lookupTable fbref "standard" = some base) :
    ∀ p ∈ fbref, p.1 = "standard" → p.2 = base := by
  obtain ⟨q, hq, hqn, hqt⟩ := lookupTable_mem hbase
  intro p hp hpn
  have hpq : p = q := List.inj_on_of_nodup_map hnames hp hq (by rw [hpn, hqn])
  rw [hpq, hqt]

/-- C2: union completeness of `merge_data_sources`.  Whenever the FBref
"standard" table exists and every participating table is well-formed with the
identity-key columns and at-most-one row per identity key, the merger returns
a table whose identity keys are pairwise distinct (exactly one row per key)
and that contains every key of every FBref table, of the well-formed WhoScored
Summary contribution, and of the non-empty Understat contribution — no key is
dropped. -/
theorem merge_union_complete (fbref : List (String × Table))
    (ws : Option (List (String × RawTab))) (us : Option Table) (base : Table)
    (hbase : lookupTable fbref "standard" = some base)
    (hnames : (fbref.map Prod.fst).Nodup)
    (hfb : ∀ p ∈ fbref, WF p.2 ∧ "Player" ∈ p.2.cols ∧ "Squad" ∈ p.2.cols ∧
      (keysOf p.2).Nodup)
    (hws : ∀ d td, ws = some d → lookupTab d "Summary" = some td →
      (keysOf (renameTeamSquad (rawToTable td))).Nodup)
    (hus : ∀ u, us = some u → (keysOf (renameTeamSquad u)).Nodup) :
    ∃ m, merge_data_sources fbref ws us = some m ∧ (keysOf m).Nodup ∧
      (∀ p ∈ fbref, ∀ k, k ∈ keysOf p.2 → k ∈ keysOf m) ∧
      (∀ d td, ws = some d → lookupTab d "Summary" = some td →
        "Player" ∈ td.headers → "Team" ∈ td.headers →
        ∀ k, k ∈ keysOf (renameTeamSquad (rawToTable td)) → k ∈ keysOf m) ∧
      (∀ u, us = some u → u.cols ≠ [] →
        ∀ k, k ∈ keysOf (renameTeamSquad u) → k ∈ keysOf m) := by
  obtain ⟨pb, hpb, hpbn, hpbt⟩ := lookupTable_mem hbase
  have hMbase : MInv base := by
    obtain ⟨h1, h2, h3, h4⟩ := hfb pb hpb
    rw [← hpbt]
    exact ⟨h1, h2, h3, h4⟩
  obtain ⟨hM1, hK1⟩ := foldl_mergeStep (fbref.filter (fun p => p.1 ≠ "standard")) base
    hMbase (fun p hp => (hfb p (List.mem_filter.mp hp).1).2.2.2)
  generalize hgen : (fbref.filter (fun p => p.1 ≠ "standard")).foldl
    (fun a p => mergeStep a p.2) base = m1 at hM1 hK1
  obtain ⟨hM2, hK2mono, hK2ws⟩ := mergeWhoscored_MInv m1 ws hM1 hws
  obtain ⟨hM3, hK3mono, hK3us⟩ := mergeUnderstat_MInv (mergeWhoscored m1 ws) us hM2 hus
  refine ⟨mergeUnderstat (mergeWhoscored m1 ws) us, ?_, hM3.2.2.2, ?_, ?_, ?_⟩
  · simp only [merge_data_sources, hbase]
    rw [hgen]
  · intro p hp k hk
    refine hK3mono k (hK2mono k ?_)
    by_cases hstd : p.1 = "standard"
    · have hpbase : p.2 = base := standard_entry_eq hnames hbase p hp hstd
      rw [hpbase] at hk
      exact (hK1 k).mpr (Or.inl hk)
    · exact (hK1 k).mpr (Or.inr ⟨p, List.mem_filter.mpr ⟨hp, decide_eq_true hstd⟩, hk⟩)
  · intro d td hd htd hPh hTh k hk
    exact hK3mono k (hK2ws d td hd htd hPh hTh k hk)
  · exact hK3us

/-- FBref standard table for the C2 witness. -/
def c2Std : Table :=
  ⟨["Player", "Squad", "Goals", "Sh"],
   [[("Player", Value.str "P1"), ("Squad", Value.str "ClubX"),
     ("Goals", Value.str "10"), ("Sh", Value.str "50")]]⟩

/-- FBref shooting table for the C2 witness; introduces a second key. -/
def c2Shoot : Table :=
  ⟨["Player", "Squad", "Dist"],
   [[("Player", Value.str "P2"), ("Squad", Value.str "ClubY"), ("Dist", Value.str "17")]]⟩

/-- FBref extract for the C2 witness. -/
def c2Fbref : List (String × Table) := [("standard", c2Std), ("shooting", c2Shoot)]

/-- WhoScored extract for the C2 witness; a well-formed Summary tab with one
shared and one new key. -/
def c2Ws : List (String × RawTab) :=
  [("Summary", ⟨["Player", "Team", "Rating"],
    [["P1", "ClubX", "7.1"], ["P3", "ClubZ", "6.9"]]⟩)]

/-- Understat frame for the C2 witness; a fourth key. -/
def c2Us : Table :=
  ⟨["Player", "Team", "xG"],
   [[("Player", Value.str "P4"), ("Team", Value.str "ClubW"), ("xG", Value.str "3.1")]]⟩

/-- Witness for C2 at concrete inputs. -/
theorem merge_union_complete_witness :
    lookupTable c2Fbref "standard" = some c2Std ∧
    ∃ m, merge_data_sources c2Fbref (some c2Ws) (some c2Us) = some m ∧
      (keysOf m).Nodup ∧
      (∀ p ∈ c2Fbref, ∀ k, k ∈ keysOf p.2 → k ∈ keysOf m) ∧
      (∀ d td, some c2Ws = some d → lookupTab d "Summary" = some td →
        "Player" ∈ td.headers → "Team" ∈ td.headers →
        ∀ k, k ∈ keysOf (renameTeamSquad (rawToTable td)) → k ∈ keysOf m) ∧
      (∀ u, some c2Us = some u → u.cols ≠ [] →
        ∀ k, k ∈ keysOf (renameTeamSquad u) → k ∈ keysOf m) := by
  refine ⟨rfl, ?_⟩
  refine merge_union_complete c2Fbref (some c2Ws) (some c2Us) c2Std rfl
    (by decide) (by decide) ?_ ?_
  · intro d td hd htd
    injection hd with h1
    subst h1
    injection htd with h2
    rw [← h2]
    decide
  · intro u hu
    injection hu with h1
    rw [← h1]
    decide

/-! ### First-source-wins (C3) -/

/-- Cell at column `c` of the first row carrying identity key `k`. -/
def cellOfKey (t : Table) (k : Value × Value) (c : String) : Option Value :=
  (t.rows.find? (fun r => rowKeyOf r = k)).map (fun r => lookupV r c)

theorem find?_mergedLeftRows (rrows : List Row) (extras : List String) :
    ∀ (lrows : List Row),
      (∀ lr ∈ lrows, "Player" ∈ lr.map Prod.fst ∧ "Squad" ∈ lr.map Prod.fst) →
      ∀ (k : Value × Value) (lr0 : Row),
        lrows.find? (fun r => rowKeyOf r = k) = some lr0 →
        ∃ ext : Row, (mergedLeftRows lrows rrows extras).find?
          (fun r => rowKeyOf r = k) = some (lr0 ++ ext) := by
  intro lrows
  induction lrows with
  | nil => intro _ k lr0 h; cases h
  | cons lr rest ih =>
    intro hkeys k lr0 hfind
    have hlr := hkeys lr (List.mem_cons_self _ _)
    show ∃ ext, ((lr :: rest).flatMap _).find? _ = _
    rw [List.flatMap_cons, List.find?_append]
    by_cases hk : rowKeyOf lr = k
    · have hlr0 : lr0 = lr := by
        have h2 : List.find? (fun r => decide (rowKeyOf r = k)) (lr :: rest) = some lr := by
          apply List.find?_cons_of_pos
          exact decide_eq_true hk
        rw [h2] at hfind
        injection hfind with h3
        exact h3.symm
      subst hlr0
      cases hm : rrows.filter (fun rr => rowKeyOf rr = rowKeyOf lr0) with
      | nil =>
        refine ⟨extras.map (fun c => (c, Value.na)), ?_⟩
        have hpred : rowKeyOf (lr0 ++ extras.map (fun c => (c, Value.na))) = k := by
          rw [rowKeyOf_append_of_mem _ hlr.1 hlr.2]
          exact hk
        simp only [hm]
        have hhead : List.find? (fun r => decide (rowKeyOf r = k))
            [lr0 ++ extras.map (fun c => (c, Value.na))] =
            some (lr0 ++ extras.map (fun c => (c, Value.na))) := by
          apply List.find?_cons_of_pos
          exact decide_eq_true hpred
        rw [hhead, Option.or_some]
      | cons rr ms2 =>
        refine ⟨extras.map (fun c => (c, lookupV rr c)), ?_⟩
        have hpred : rowKeyOf (lr0 ++ extras.map (fun c => (c, lookupV rr c))) = k := by
          rw [rowKeyOf_append_of_mem _ hlr.1 hlr.2]
          exact hk
        simp only [hm, List.map_cons]
        have hhead : List.find? (fun r => decide (rowKeyOf r = k))
            ((lr0 ++ extras.map (fun c => (c, lookupV rr c))) ::
              ms2.map (fun rr2 => lr0 ++ extras.map (fun c => (c, lookupV rr2 c)))) =
            some (lr0 ++ extras.map (fun c => (c, lookupV rr c))) := by
          apply List.find?_cons_of_pos
          exact decide_eq_true hpred
        rw [hhead, Option.or_some]
    · have hfind2 : rest.find? (fun r => rowKeyOf r = k) = some lr0 := by
        have h2 : List.find? (fun r => decide (rowKeyOf r = k)) (lr :: rest) =
            List.find? (fun r => decide (rowKeyOf r = k)) rest := by
          apply List.find?_cons_of_neg
          simp [hk]
        rw [h2] at hfind
        exact hfind
      obtain ⟨ext, hext⟩ := ih (fun x hx => hkeys x (List.mem_cons_of_mem _ hx)) k lr0 hfind2
      refine ⟨ext, ?_⟩
      have hnone : (match rrows.filter (fun rr => rowKeyOf rr = rowKeyOf lr) with
          | [] => [lr ++ extras.map (fun c => (c, Value.na))]
          | ms => ms.map (fun rr => lr ++ extras.map (fun c => (c, lookupV rr c)))).find?
            (fun r => rowKeyOf r = k) = none := by
        rw [List.find?_eq_none]
        intro x hx
        cases hm : rrows.filter (fun rr => rowKeyOf rr = rowKeyOf lr) with
        | nil =>
          rw [hm] at hx
          rcases List.mem_cons.mp hx with rfl | h2
          · simp only [decide_eq_true_eq]
            rw [rowKeyOf_append_of_mem _ hlr.1 hlr.2]
            exact hk
          · simp at h2
        | cons rr ms2 =>
          rw [hm] at hx
          obtain ⟨rr2, _, rfl⟩ := List.mem_map.mp hx
          simp only [decide_eq_true_eq]
          rw [rowKeyOf_append_of_mem _ hlr.1 hlr.2]
          exact hk
      rw [hnone, Option.none_or]
      exact hext

theorem mem_keysOf_find? (t : Table) (k : Value × Value) (hk : k ∈ keysOf t) :
    ∃ lr0, t.rows.find? (fun r => rowKeyOf r = k) = some lr0 ∧ lr0 ∈ t.rows := by
  obtain ⟨r, hr, hrk⟩ := List.mem_map.mp hk
  have hsome : (t.rows.find? (fun r => rowKeyOf r = k)).isSome := by
    rw [List.find?_isSome]
    exact ⟨r, hr, decide_eq_true hrk⟩
  cases hf : t.rows.find? (fun r => rowKeyOf r = k) with
  | none => rw [hf] at hsome; cases hsome
  | some lr0 => exact ⟨lr0, rfl, List.mem_of_find?_eq_some hf⟩

theorem cellOfKey_mergeStep (acc t : Table) (hwf : WF acc)
    (hP : "Player" ∈ acc.cols) (hS : "Squad" ∈ acc.cols)
    (k : Value × Value) (hk : k ∈ keysOf acc) (c : String) (hc : c ∈ acc.cols) :
    cellOfKey (mergeStep acc t) k c = cellOfKey acc k c := by
  obtain ⟨lr0, hfind, hmem⟩ := mem_keysOf_find? acc k hk
  have hkeys0 : lr0.map Prod.fst = acc.cols := hwf lr0 hmem
  obtain ⟨ext, hext⟩ := find?_mergedLeftRows (dropCommonCols acc t).rows
    ((dropCommonCols acc t).cols.filter (fun c => c ≠ "Player" ∧ c ≠ "Squad"))
    acc.rows (fun lr hlr => ⟨(hwf lr hlr) ▸ hP, (hwf lr hlr) ▸ hS⟩) k lr0 hfind
  unfold cellOfKey mergeStep pd_merge
  dsimp only
  rw [List.find?_append, hext, Option.or_some, hfind]
  show some (lookupV (lr0 ++ ext) c) = some (lookupV lr0 c)
  rw [lookupV_append_left (hkeys0 ▸ hc)]

theorem nodup_cols_mergeStep (acc t : Table) (hNa : acc.cols.Nodup)
    (hNt : t.cols.Nodup) : (mergeStep acc t).cols.Nodup := by
  have hcols : (mergeStep acc t).cols = acc.cols ++
      (dropCommonCols acc t).cols.filter (fun c => c ≠ "Player" ∧ c ≠ "Squad") := rfl
  rw [hcols, List.nodup_append]
  refine ⟨hNa, ?_, ?_⟩
  · refine List.Nodup.filter _ ?_
    unfold dropCommonCols dropCols
    exact List.Nodup.filter _ hNt
  · intro a ha hafil
    have h1 := List.mem_filter.mp hafil
    have h2 := of_decide_eq_true h1.2
    have h3 := (mem_cols_dropCommonCols acc t a).mp h1.1
    exact h3.2 ⟨ha, h2.1, h2.2⟩

/-- C3: duplicate-column resolution is first-seen-source-wins.  In a merge
pass, a non-key column present in both the accumulator and the incoming table
is dropped from the incoming copy; for an identity key present on both sides
the merged row keeps the accumulator's value in that column; and the merged
column names are pairwise distinct (no `_x`/`_y` duplication). -/
theorem merge_first_source_wins (acc t : Table)
    (hwf : WF acc) (hP : "Player" ∈ acc.cols) (hS : "Squad" ∈ acc.cols)
    (hNa : acc.cols.Nodup) (hNt : t.cols.Nodup)
    (c : String) (hcA : c ∈ acc.cols) (hcT : c ∈ t.cols)
    (hcP : c ≠ "Player") (hcS : c ≠ "Squad")
    (k : Value × Value) (hk : k ∈ keysOf acc) (hkt : k ∈ keysOf t) :
    c ∉ (dropCommonCols acc t).cols ∧
    cellOfKey (mergeStep acc t) k c = cellOfKey acc k c ∧
    (mergeStep acc t).cols.Nodup := by
  refine ⟨?_, cellOfKey_mergeStep acc t hwf hP hS k hk c hcA,
    nodup_cols_mergeStep acc t hNa hNt⟩
  intro hmem
  exact ((mem_cols_dropCommonCols acc t c).mp hmem).2 ⟨hcA, hcP, hcS⟩

/-- Accumulator table for the C3 witness. -/
def c3Acc : Table :=
  ⟨["Player", "Squad", "Goals"],
   [[("Player", Value.str "P1"), ("Squad", Value.str "ClubX"), ("Goals", Value.str "10")]]⟩

/-- Incoming table for the C3 witness, with a conflicting Goals column. -/
def c3T : Table :=
  ⟨["Player", "Squad", "Goals", "Dist"],
   [[("Player", Value.str "P1"), ("Squad", Value.str "ClubX"),
     ("Goals", Value.str "99"), ("Dist", Value.str "5")]]⟩

/-- Witness for C3 at concrete tables: the accumulator's Goals value (10, not
the incoming 99) survives the merge pass. -/
theorem merge_first_source_wins_witness :
    WF c3Acc ∧
    cellOfKey c3Acc (Value.str "P1", Value.str "ClubX") "Goals" =
      some (Value.str "10") ∧
    ("Goals" ∉ (dropCommonCols c3Acc c3T).cols ∧
     cellOfKey (mergeStep c3Acc c3T) (Value.str "P1", Value.str "ClubX") "Goals" =
       cellOfKey c3Acc (Value.str "P1", Value.str "ClubX") "Goals" ∧
     (mergeStep c3Acc c3T).cols.Nodup) := by
  refine ⟨by decide, by decide, ?_⟩
  exact merge_first_source_wins c3Acc c3T (by decide) (by decide) (by decide)
    (by decide) (by decide) "Goals" (by decide) (by decide) (by decide) (by decide)
    (Value.str "P1", Value.str "ClubX") (by decide) (by decide)
